import Mathlib

/-!
Verification development for the azure-waf-agentic-review-system core:
a shallow embedding of the deterministic scoring engine
(src/backend/utils/scoring/scoring.py and src/src/utils/scoring/scoring.py)
and the assessment orchestrator (src/backend/app/analysis/orchestrator.py).

Conventions of the embedding:
* Python `str` values are embedded as `List Char` (ASCII scope; the inputs of
  all claims are ASCII).  Python `float` arithmetic is embedded as exact `ℚ`
  arithmetic; `round(x, 2)` and `round(x)` use round-half-to-even on `ℚ`,
  matching the Python rounding mode on exactly representable values.
* Python dicts are embedded as association lists (`List (k × v)`); keys are
  unique in every input the source constructs, and lookup takes the first hit.
* Fallible Python code is embedded with `Except`/`Option`.
-/

namespace AzWaf

abbrev Str := List Char

/-- The character list of a Lean string literal. -/
def chars (s : String) : Str := s.data

/-- Characters that Python `str.split()` / `str.strip()` treat as whitespace
(ASCII subset: space, tab, newline, carriage return, vertical tab, form feed). -/
def pyIsSpace (c : Char) : Bool :=
  c = ' ' || c = '\t' || c = '\n' || c = '\r' || c = '\x0b' || c = '\x0c'

/-- Accumulator-based splitter: `splitWSAux l acc` processes `l` with the
reversed current word `acc`; mirrors CPython `str.split()` with no argument
(split on runs of whitespace, no empty words). -/
def splitWSAux : Str → Str → List Str
  | [], acc => if acc = [] then [] else [acc.reverse]
  | c :: cs, acc =>
    if pyIsSpace c then
      (if acc = [] then splitWSAux cs [] else acc.reverse :: splitWSAux cs [])
    else splitWSAux cs (c :: acc)

/-- Python `text.split()` (no separator argument). -/
def pySplit (s : Str) : List Str := splitWSAux s []

/-- Python `s.strip()`: drop whitespace from both ends. -/
def pyStrip (s : Str) : Str :=
  ((s.dropWhile pyIsSpace).reverse.dropWhile pyIsSpace).reverse

/-- Python `s.lower()` (ASCII). -/
def pyLower (s : Str) : Str := s.map Char.toLower

/-- Python `s.lower()` on a Lean-level string value. -/
def pyLowerStr (s : String) : String := String.mk (pyLower s.data)

/-- A regex word character (`\w`) in the ASCII range: alphanumeric or underscore. -/
def isWordChar (c : Char) : Bool := c.isAlphanum || c = '_'

/-- Whether the character at index `i` of `s` is a word character
(out of range counts as non-word, as regex treats string ends). -/
def wordAt (s : Str) (i : ℕ) : Bool := (s[i]?.map isWordChar).getD false

/-- The regex `\b` assertion at position `p` of `s` (between indices `p - 1`
and `p`): holds iff exactly one side is a word character. -/
def atBoundary (s : Str) (p : ℕ) : Bool :=
  (if p = 0 then false else wordAt s (p - 1)) != wordAt s p

/-- `needle` occurs in `hay` starting at index `i`. -/
def occursAt (hay needle : Str) (i : ℕ) : Bool := needle.isPrefixOf (hay.drop i)

/-- Embeds `_phrase_present(text, phrase)` of both scoring modules:
strip the phrase, fail on empty, then search the regex
`\b re.escape(phrase) \b` in `text`.  Since the phrase is escaped, a regex
match is exactly a literal occurrence with a `\b` boundary on both ends. -/
def phrase_present (text phrase : Str) : Bool :=
  let p := pyStrip phrase
  if p = [] then false
  else (List.range (text.length + 1)).any fun i =>
    occursAt text p i && atBoundary text i && atBoundary text (i + p.length)

/-- Round-half-to-even to an integer (the rounding mode of Python `round`).
Written with the computable `Rat.floor`; `ratFloor_eq_floor` below links it
to the `Int.floor` API. -/
def roundHalfEven (q : ℚ) : ℤ :=
  if q - (q.floor : ℚ) < 1/2 then q.floor
  else if 1/2 < q - (q.floor : ℚ) then q.floor + 1
  else if q.floor % 2 = 0 then q.floor else q.floor + 1

/-- Python `round(q, 2)` on the exact rational model. -/
def pyRound2 (q : ℚ) : ℚ := (roundHalfEven (q * 100) : ℚ) / 100

/-- Python `int(q)` on a float value: truncation toward zero. -/
def pyTruncQ (q : ℚ) : ℤ := if 0 ≤ q then q.floor else -(-q).floor

theorem ratFloor_eq_floor (q : ℚ) : q.floor = ⌊q⌋ := by
  rw [Rat.floor_def', ← Rat.floor_def]

theorem floor_eq_of (q : ℚ) (z : ℤ) (h1 : (z : ℚ) ≤ q) (h2 : q < z + 1) :
    q.floor = z := by
  rw [ratFloor_eq_floor]
  exact Int.floor_eq_iff.mpr ⟨h1, h2⟩

theorem roundHalfEven_eq_low (q : ℚ) (z : ℤ) (h1 : (z : ℚ) ≤ q)
    (h2 : q < (z : ℚ) + 1/2) : roundHalfEven q = z := by
  have hf : q.floor = z := floor_eq_of q z h1 (by linarith)
  rw [roundHalfEven, hf, if_pos (by linarith)]

theorem roundHalfEven_eq_high (q : ℚ) (z : ℤ) (h1 : (z : ℚ) + 1/2 < q)
    (h2 : q < (z : ℚ) + 1) : roundHalfEven q = z + 1 := by
  have hf : q.floor = z := floor_eq_of q z (by linarith) h2
  rw [roundHalfEven, hf, if_neg (by linarith), if_pos (by linarith)]

theorem roundHalfEven_intCast (z : ℤ) : roundHalfEven (z : ℚ) = z :=
  roundHalfEven_eq_low _ z le_rfl (by norm_num)

theorem roundHalfEven_half_even (z : ℤ) (hz : z % 2 = 0) :
    roundHalfEven ((z : ℚ) + 1/2) = z := by
  have hf : ((z : ℚ) + 1/2).floor = z := floor_eq_of _ z (by linarith) (by norm_num)
  rw [roundHalfEven, hf, if_neg (by norm_num), if_neg (by norm_num), if_pos hz]

theorem roundHalfEven_half_odd (z : ℤ) (hz : ¬ z % 2 = 0) :
    roundHalfEven ((z : ℚ) + 1/2) = z + 1 := by
  have hf : ((z : ℚ) + 1/2).floor = z := floor_eq_of _ z (by linarith) (by norm_num)
  rw [roundHalfEven, hf, if_neg (by norm_num), if_neg (by norm_num), if_neg hz]

/-! ### Dynamic values of recommendation dicts

Recommendation severity fields hold arbitrary JSON scalars; the source reads
them through Python truthiness and `int(...)`.  `PyVal` embeds the scalar
values relevant here (absent keys are modelled with `Option PyVal`). -/

inductive PyVal where
  | vnone : PyVal
  | vint : ℤ → PyVal
  | vstr : String → PyVal
  | vfloat : ℚ → PyVal
deriving DecidableEq

/-- Python truthiness of a scalar. -/
def PyVal.truthy : PyVal → Bool
  | .vnone => false
  | .vint n => decide (n ≠ 0)
  | .vstr s => decide (s ≠ "")
  | .vfloat q => decide (q ≠ 0)

/-- Digit accumulation for `int(str)`; fails on any non-digit. -/
def digitsToNat : Str → ℕ → Option ℕ
  | [], acc => some acc
  | c :: cs, acc =>
    if c.isDigit then digitsToNat cs (acc * 10 + (c.toNat - '0'.toNat)) else none

/-- Python `int(s)` for a string: optional sign then decimal digits
(whitespace stripped; digit-group underscores are not modelled, no claim
input uses them).  `none` embeds a raised `ValueError`. -/
def pyParseInt (s : String) : Option ℤ :=
  match pyStrip (chars s) with
  | '-' :: rest => if rest = [] then none else (digitsToNat rest 0).map (fun n => -(n : ℤ))
  | '+' :: rest => if rest = [] then none else (digitsToNat rest 0).map (fun n => (n : ℤ))
  | rest => if rest = [] then none else (digitsToNat rest 0).map (fun n => (n : ℤ))

/-- Python `int(v)` on a scalar; `none` embeds a raised `TypeError`/`ValueError`. -/
def PyVal.toInt : PyVal → Option ℤ
  | .vnone => none
  | .vint n => some n
  | .vstr s => pyParseInt s
  | .vfloat q => some (pyTruncQ q)

/-- Python `a or b` restricted to scalars: `b` when `a` is falsy. -/
def pyOr (a b : PyVal) : PyVal := if a.truthy then a else b

/-! ### The scoring data model

Category (pillar) definitions are JSON documents; the embedding keeps the
fields that the scoring engine reads.  A recommendation dict is embedded by
its three possible severity keys plus `rid`, standing for the rest of the
payload (id, title, description, ...), which the engine copies unchanged. -/

structure Rec where
  rid : String
  severity : Option PyVal
  execution_priority : Option PyVal
  priority : Option PyVal
deriving DecidableEq

/-- The value of `rec.get(k)`: the stored value, or Python `None` when absent. -/
def getVal (v : Option PyVal) : PyVal := v.getD PyVal.vnone

/-- Embeds the chain `severity_raw = rec.get(severity-key) or
rec.get(execution-priority-key) or rec.get(priority-key) or 5`
(Python `or` chains on truthiness). -/
def severityRaw (r : Rec) : PyVal :=
  pyOr (getVal r.severity)
    (pyOr (getVal r.execution_priority) (pyOr (getVal r.priority) (PyVal.vint 5)))

/-- Embeds `try: severity = int(severity_raw) except (TypeError, ValueError):
severity = 5` applied to `severityRaw`. -/
def normSeverity (r : Rec) : ℤ := (severityRaw r).toInt.getD 5

/-- The `scoring` block of a practice (mode, signals, weights, aliases).
An absent or empty dict entry is embedded as an absent field, matching the
falsy checks of the source. -/
structure ScoringConf where
  mode : Option String
  signals : List String
  signal_weights : List (String × ℚ)
  signal_aliases : List (String × List String)
deriving DecidableEq

/-- Embeds `weights = scoring_conf.get("signal_weights", {}) or
dict.fromkeys(signals, 1.0)`: an absent or empty weight dict defaults every
signal to weight 1. -/
def effWeights (conf : ScoringConf) : List (String × ℚ) :=
  if conf.signal_weights = [] then conf.signals.map (fun s => (s, 1))
  else conf.signal_weights

/-- Embeds `weights.get(s, 1)`. -/
def wGet (ws : List (String × ℚ)) (s : String) : ℚ := (ws.lookup s).getD 1

/-- Embeds `aliases.get(sig, [])`. -/
def aliasesOf (conf : ScoringConf) (s : String) : List String :=
  (conf.signal_aliases.lookup s).getD []

/-- Embeds the per-signal check `any(_phrase_present(text, t) for t in
[sig.lower()] + [str(a).lower() for a in aliases.get(sig, [])])`. -/
def signalMatched (conf : ScoringConf) (text : Str) (sig : String) : Bool :=
  (sig :: aliasesOf conf sig).any fun t => phrase_present text (pyLower (chars t))

/-- Result dict of the backend `_match_scoring_signals` (all four keys always
present: src/backend/utils/scoring/scoring.py lines 35-44). -/
structure MatchInfo where
  matched : List String
  matched_weight : ℚ
  total_weight : ℚ
  coverage : ℚ
deriving DecidableEq

/-- Embeds the backend `_match_scoring_signals(text, scoring_conf)`. -/
def match_scoring_signals (text : Str) (conf : ScoringConf) : MatchInfo :=
  let ws := effWeights conf
  let matched := conf.signals.filter (signalMatched conf text)
  let mw := (matched.map (wGet ws)).sum
  let tw := (conf.signals.map (wGet ws)).sum
  { matched := matched, matched_weight := mw, total_weight := tw,
    coverage := if tw = 0 then 0 else mw / tw }

/-- Result dict of the src/src `_match_scoring_signals`
(src/src/utils/scoring/scoring.py lines 140-164): on `total_weight == 0` it
returns early WITHOUT a `coverage` key, embedded as `coverage = none`. -/
structure MatchInfoSrc where
  matched : List String
  matched_weight : ℚ
  total_weight : ℚ
  coverage : Option ℚ
deriving DecidableEq

/-- Embeds the src/src variant of `_match_scoring_signals`. -/
def match_scoring_signals_src (text : Str) (conf : ScoringConf) : MatchInfoSrc :=
  let ws := effWeights conf
  let tw := (conf.signals.map (wGet ws)).sum
  if tw = 0 then
    { matched := [], matched_weight := 0, total_weight := 0, coverage := none }
  else
    let matched := conf.signals.filter (signalMatched conf text)
    let mw := (matched.map (wGet ws)).sum
    { matched := matched, matched_weight := mw, total_weight := tw,
      coverage := some (if tw = 0 then 0 else mw / tw) }

/-- The `1e-9` threshold slack of the tiered mode (the binary double of
`1e-9` differs from the exact rational only below any coverage granularity
reachable here). -/
def tierEps : ℚ := 1 / 1000000000

/-- The `tiered` branch of `_score_from_coverage`: first threshold of
`[(1.0,5),(0.75,4),(0.5,3),(0.25,2),(0.0,1)]` with
`coverage >= t - 1e-9 and (t < 1.0 or full_match)`, else the fallthrough 1. -/
def tieredScore (coverage : ℚ) (fullMatch : Bool) : ℤ :=
  if coverage ≥ 1 - tierEps ∧ fullMatch = true then 5
  else if coverage ≥ 3/4 - tierEps then 4
  else if coverage ≥ 1/2 - tierEps then 3
  else if coverage ≥ 1/4 - tierEps then 2
  else if coverage ≥ 0 - tierEps then 1
  else 1

/-- Embeds `_score_from_coverage(mode, coverage, any_matched, full_match)`. -/
def score_from_coverage (mode : String) (coverage : ℚ)
    (anyMatched fullMatch : Bool) : ℤ :=
  if anyMatched = false then 0
  else if mode = "proportional" then roundHalfEven (coverage * 5)
  else if mode = "tiered" then tieredScore coverage fullMatch
  else if mode = "binary" then
    (if fullMatch = true then 5 else if coverage ≥ 1/2 then 4 else 2)
  else roundHalfEven (coverage * 5)

/-- A practice definition: the fields the engine reads.  `scoring = none`
covers both an absent and an empty (falsy) scoring block. -/
structure Practice where
  code : Option String
  title : String
  weight : Option ℚ
  scoring : Option ScoringConf
  signals : List String
  recommendations : List Rec
deriving DecidableEq

/-- The produced `PracticeScore` dataclass. -/
structure PracticeScore where
  code : Option String
  title : String
  weight : ℚ
  score : ℤ
  matched_signals : List String
  total_signals : ℕ
  coverage : ℚ
  mode : String
deriving DecidableEq

/-- Embeds the backend `_score_practice(practice, text, override_weight)`. -/
def score_practice (p : Practice) (text : Str) (overrideWeight : Option ℚ) :
    PracticeScore :=
  match p.scoring with
  | some conf =>
    let mode := pyLowerStr (conf.mode.getD ("proportional"))
    let mi := match_scoring_signals text conf
    let coverage := mi.coverage
    let anyMatched := !mi.matched.isEmpty
    let fullMatch := decide (coverage ≥ 999/1000)
    { code := p.code, title := p.title,
      weight := overrideWeight.getD (p.weight.getD 0),
      score := score_from_coverage mode coverage anyMatched fullMatch,
      matched_signals := mi.matched, total_signals := conf.signals.length,
      coverage := coverage, mode := mode }
  | none =>
    let matched := p.signals.filter fun s => phrase_present text (pyLower (chars s))
    let coverage : ℚ := if p.signals = [] then 0 else (matched.length : ℚ) / p.signals.length
    let score : ℤ := if p.signals = [] then 0 else roundHalfEven (coverage * 5)
    { code := p.code, title := p.title,
      weight := overrideWeight.getD (p.weight.getD 0),
      score := score, matched_signals := matched, total_signals := p.signals.length,
      coverage := coverage, mode := "legacy-proportional" }

/-- Embeds the src/src `_score_practice`: identical to the backend version
except that it reads `match_info["coverage"]` from the src/src
`_match_scoring_signals`, whose zero-total-weight early return has no such
key; the resulting `KeyError` is embedded as `Except.error`. -/
def score_practice_src (p : Practice) (text : Str) (overrideWeight : Option ℚ) :
    Except String PracticeScore :=
  match p.scoring with
  | some conf =>
    let mode := pyLowerStr (conf.mode.getD ("proportional"))
    let mi := match_scoring_signals_src text conf
    match mi.coverage with
    | none => Except.error ("KeyError: coverage")
    | some coverage =>
      let anyMatched := !mi.matched.isEmpty
      let fullMatch := decide (coverage ≥ 999/1000)
      Except.ok
        { code := p.code, title := p.title,
          weight := overrideWeight.getD (p.weight.getD 0),
          score := score_from_coverage mode coverage anyMatched fullMatch,
          matched_signals := mi.matched, total_signals := conf.signals.length,
          coverage := coverage, mode := mode }
  | none =>
    let matched := p.signals.filter fun s => phrase_present text (pyLower (chars s))
    let coverage : ℚ := if p.signals = [] then 0 else (matched.length : ℚ) / p.signals.length
    let score : ℤ := if p.signals = [] then 0 else roundHalfEven (coverage * 5)
    Except.ok
      { code := p.code, title := p.title,
        weight := overrideWeight.getD (p.weight.getD 0),
        score := score, matched_signals := matched, total_signals := p.signals.length,
        coverage := coverage, mode := "legacy-proportional" }

/-- A normalized surfaced recommendation: the payload, the normalized
severity, and the practice code stamped by `_collect_recommendations`. -/
structure NormRec where
  rid : String
  severity : ℤ
  practice : Option String
deriving DecidableEq

/-- The normalized dict built inside `_collect_recommendations`. -/
def normalizeRec (r : Rec) (ps : PracticeScore) : NormRec :=
  { rid := r.rid, severity := normSeverity r, practice := ps.code }

/-- Embeds `_collect_recommendations(practice, ps)`: keep a recommendation
iff the practice scored at most 2 and the normalized severity is at most 2. -/
def collect_recommendations (p : Practice) (ps : PracticeScore) : List NormRec :=
  (p.recommendations.filter fun r => decide (ps.score ≤ 2 ∧ normSeverity r ≤ 2)).map
    fun r => normalizeRec r ps

/-- A loaded pillar definition: the fields `compute_pillar_scores` reads
(gap definitions are omitted: no claim concerns gap evaluation). -/
structure PillarData where
  practices : List Practice
  weights : List (String × ℚ)
deriving DecidableEq

/-- The produced `PillarScores` dataclass (fields the claims concern). -/
structure PillarScores where
  overall_maturity_percent : ℚ
  practice_scores : List PracticeScore
  recommendations : List NormRec
deriving DecidableEq

/-- Embeds `override_weight = weights_map.get(code) if code and code in
weights_map else None`. -/
def overrideFor (data : PillarData) (p : Practice) : Option ℚ :=
  match p.code with
  | some c => if c ≠ "" ∧ (data.weights.lookup c).isSome then data.weights.lookup c else none
  | none => none

/-- Embeds `compute_pillar_scores(architecture_text, pillar)` after the
pillar JSON has been loaded into `data` (file loading is an external
concern): lower-case the text, score every practice in order, accumulate
the weighted sum, collect recommendations, and round the overall percent
to two decimals. -/
def compute_pillar_scores (data : PillarData) (architectureText : Str) : PillarScores :=
  let text := pyLower architectureText
  let results := data.practices.map fun p =>
    let ps := score_practice p text (overrideFor data p)
    (ps, collect_recommendations p ps)
  let pss := results.map Prod.fst
  let totalWeight := (pss.map (fun ps => ps.weight)).sum
  let weightedScores := (pss.map fun ps => (ps.score : ℚ) * ps.weight).sum
  let overallRaw := if totalWeight = 0 then 0 else weightedScores / (5 * totalWeight) * 100
  { overall_maturity_percent := pyRound2 overallRaw,
    practice_scores := pss,
    recommendations := (results.map Prod.snd).flatten }

/-! ### Orchestrator: corpus section truncation

`AssessmentOrchestrator._estimate_tokens` and
`_safe_truncate_corpus_section` (src/backend/app/analysis/orchestrator.py
lines 334-360). -/

/-- Python `s[:n]` (slice to `n`; a negative `n` counts from the end). -/
def pySliceTo (s : Str) (n : ℤ) : Str :=
  s.take (if 0 ≤ n then n.toNat else ((s.length : ℤ) + n).toNat)

/-- Python `s.rfind(c)`: highest index of `c`, or `-1` when absent. -/
def pyRfind (s : Str) (c : Char) : ℤ :=
  match s.reverse.findIdx? (fun x => x == c) with
  | some i => (s.length : ℤ) - 1 - i
  | none => -1

/-- Embeds `_estimate_tokens`: `int(len(text.split()) * 1.3)` (0 for empty
text).  Written as the integer division `13 * words / 10`, which agrees with
truncating the exact product `words * 13/10` for every word count
(`estimate_tokens_model` below); the binary double `1.3` is minimally above
`13/10` and the product never crosses an integer for any feasible count. -/
def estimate_tokens (text : Str) : ℤ :=
  if text = [] then 0 else (13 * ((pySplit text).length : ℤ)) / 10

theorem estimate_tokens_model (t : Str) :
    estimate_tokens t = if t = [] then 0 else pyTruncQ (((pySplit t).length : ℚ) * (13/10)) := by
  rw [estimate_tokens]
  split
  · rfl
  · have hnn : (0 : ℚ) ≤ ((pySplit t).length : ℚ) * (13/10) := by positivity
    rw [pyTruncQ, if_pos hnn]
    have hcast : ((pySplit t).length : ℚ) * (13/10) =
        ((13 * ((pySplit t).length : ℤ) : ℤ) : ℚ) / ((10 : ℕ) : ℚ) := by
      push_cast; ring
    rw [hcast, ratFloor_eq_floor, Rat.floor_intCast_div_natCast]
    norm_num

/-- The literal truncation marker appended by the source. -/
def truncationMarker : Str :=
  chars ("\n\n... [Content truncated for token budget - full context preserved in document analysis]")

/-- Embeds `_safe_truncate_corpus_section(section_text, max_tokens)`.
The sentence-boundary test `last_period > max_chars * 0.8` is written as
`5 * last_period > 4 * max_chars` (`0.8 = 4/5` exactly in the reals, and
for the budgets the program passes the double product equals the exact one;
`truncate_boundary_model` below records the equivalence). -/
def safe_truncate_corpus_section (sectionText : Str) (maxTokens : ℤ) : Str :=
  if sectionText = [] then sectionText
  else if estimate_tokens sectionText ≤ maxTokens then sectionText
  else
    let maxChars : ℤ := maxTokens * 4
    if (sectionText.length : ℤ) > maxChars then
      let truncated := pySliceTo sectionText maxChars
      let lastPeriod := pyRfind truncated '.'
      let truncated2 :=
        if 5 * lastPeriod > 4 * maxChars then pySliceTo truncated (lastPeriod + 1)
        else truncated
      truncated2 ++ truncationMarker
    else sectionText

theorem truncate_boundary_model (lp mc : ℤ) :
    (5 * lp > 4 * mc) ↔ ((lp : ℚ) > (mc : ℚ) * (4/5)) := by
  constructor
  · intro h
    have h5 : ((4 * mc : ℤ) : ℚ) < ((5 * lp : ℤ) : ℚ) := by exact_mod_cast h
    push_cast at h5
    linarith
  · intro h
    have h5 : ((4 * mc : ℤ) : ℚ) < ((5 * lp : ℤ) : ℚ) := by push_cast; linarith
    exact_mod_cast h5

/-! ### Orchestrator: semantic recommendation deduplication

`AssessmentOrchestrator._dedupe_semantic_recommendations`
(src/backend/app/analysis/orchestrator.py lines 506-570), on the
bag-of-words fallback path (no LLM provider, no OpenAI key).  The source
L2-normalizes each count vector and tests `_cos(vec, rep_vec) > 0.90`;
in exact arithmetic the normalizations cancel inside the cosine, so the
embedding works on the raw count vectors and tests the algebraically equal
squared form (`cosGt90_model` below ties it to the real-valued cosine with
the `or 1.0` guards of `_cos`). -/

/-- A recommendation as the deduplicator sees it: `rid` stands for the
payload, `title` and `reasoning` feed the vectorizer. -/
structure DRec where
  rid : String
  title : String
  reasoning : String
deriving DecidableEq

/-- Embeds the token extraction: `(title + " \n" + reasoning).strip()`,
lower-cased, split, keeping only `tok.isalpha()` tokens. -/
def tokensOf (title reasoning : String) : List Str :=
  let combined := pyStrip (chars title ++ chars (" \n") ++ chars reasoning)
  (pySplit (pyLower combined)).filter fun w => decide (w ≠ []) && w.all Char.isAlpha

/-- Embeds the vocabulary build: first-appearance order over all token
lists (`vocab[tok] = len(vocab)` on first sight). -/
def buildVocab (tokenLists : List (List Str)) : List Str :=
  tokenLists.foldl
    (fun v toks => toks.foldl (fun v2 tok => if tok ∈ v2 then v2 else v2 ++ [tok]) v) []

/-- Embeds the count vector over the vocabulary (`vec[vocab[tok]] += 1.0`). -/
def bowVector (vocab : List Str) (toks : List Str) : List ℚ :=
  vocab.map fun w => (toks.count w : ℚ)

/-- Dot product of two equal-length vectors (`sum(x*y for x,y in zip(a,b))`). -/
def dot (a b : List ℚ) : ℚ := ((a.zip b).map fun p => p.1 * p.2).sum

/-- Squared L2 norm. -/
def normSq (a : List ℚ) : ℚ := dot a a

/-- The similarity test `_cos(vec, rep_vec) > 0.90` of the source, in exact
arithmetic on the unnormalized count vectors: equivalent to the positive
dot product with `100 * dot^2 > 81 * |a|^2 * |b|^2`. -/
def cosGt90 (a b : List ℚ) : Bool :=
  decide (0 < dot a b ∧ 81 * (normSq a * normSq b) < 100 * (dot a b) ^ 2)

/-- The greedy pass: keep a candidate unless it is similar to an
already-kept representative; kept vectors are appended in order. -/
def dedupeGo {α : Type} : List (α × List ℚ) → List (List ℚ) → List α
  | [], _ => []
  | (r, v) :: rest, reps =>
    if reps.any (fun rep => cosGt90 v rep) then dedupeGo rest reps
    else r :: dedupeGo rest (reps ++ [v])

/-- The bag-of-words fallback vectors: one count vector per recommendation
over the shared vocabulary. -/
def fallbackVectors (recs : List DRec) : List (List ℚ) :=
  (recs.map fun r => tokensOf r.title r.reasoning).map
    (bowVector (buildVocab (recs.map fun r => tokensOf r.title r.reasoning)))

/-- Embeds `_dedupe_semantic_recommendations(recs)` on the bag-of-words
fallback path. -/
def dedupe_semantic_recommendations (recs : List DRec) : List DRec :=
  if recs = [] then recs
  else dedupeGo (recs.zip (fallbackVectors recs)) []

/-! ### Orchestrator: unified corpus composition

`UnifiedReviewCorpus.__post_init__` (src/backend/app/analysis/orchestrator.py
lines 49-79).  The inventory join iterates `set(services)`; CPython
enumerates a set of strings in an order that depends on the per-process
hash seed, so the embedding takes the enumeration order as a parameter
`setOrder` (applied to the distinct services in first-appearance order;
any permutation is a possible CPython enumeration). -/

structure Component where
  service : String
  category : Option String
deriving DecidableEq

/-- Python `str.title()` (ASCII): upper-case a letter that follows a
non-letter, lower-case the other letters. -/
def pyTitleAux : Str → Bool → Str
  | [], _ => []
  | c :: cs, prevAlpha =>
    (if c.isAlpha then (if prevAlpha then c.toLower else c.toUpper) else c)
      :: pyTitleAux cs c.isAlpha

def pyTitle (s : Str) : Str := pyTitleAux s false

/-- First-appearance deduplication (the element set of `set(services)`). -/
def dedupFirst (l : List String) : List String :=
  l.foldl (fun acc s => if s ∈ acc then acc else acc ++ [s]) []

/-- `by_category`: a dict built with `setdefault(cat, []).append(service)`,
keyed in insertion order. -/
def byCategory (inv : List Component) : List (String × List String) :=
  inv.foldl
    (fun acc comp =>
      let cat := comp.category.getD ("other")
      if (acc.lookup cat).isSome then
        acc.map fun p => if p.1 = cat then (p.1, p.2 ++ [comp.service]) else p
      else acc ++ [(cat, [comp.service])])
    []

/-- `", ".join(names)`. -/
def joinComma (names : List String) : Str :=
  List.intercalate (chars (", ")) (names.map chars)

/-- `"; ".join(items)`. -/
def joinSemicolon (items : List String) : Str :=
  List.intercalate (chars ("; ")) (items.map chars)

/-- Embeds the `full_corpus` computed by `UnifiedReviewCorpus.__post_init__`
from the three sections, the component inventory and the pillar context;
`setOrder` stands for the CPython `set` enumeration order (see above). -/
def full_corpus (setOrder : List String → List String)
    (arch visual cases : Str) (inv : List Component)
    (pillarCtx : List (String × List String)) : Str :=
  let parts : List Str :=
    (if arch ≠ [] then [chars ("=== ARCHITECTURE NARRATIVE ===\n") ++ arch] else []) ++
    (if visual ≠ [] then [chars ("\n=== VISUAL TOPOLOGY INSIGHTS ===\n") ++ visual] else []) ++
    (if cases ≠ [] then [chars ("\n=== OPERATIONAL REALITY (SUPPORT CASES) ===\n") ++ cases] else []) ++
    (if inv ≠ [] then
      chars ("\n=== COMPONENT INVENTORY ===") ::
        ((byCategory inv).map fun p =>
          pyTitle (chars p.1) ++ chars (": ") ++ joinComma (setOrder (dedupFirst p.2)))
     else [])
  let base := List.intercalate (chars ("\n")) parts
  if pillarCtx ≠ [] then
    let evidenceSection : List Str :=
      chars ("\n=== CONSOLIDATED PILLAR EVIDENCE ===") ::
        ((pillarCtx.filter fun p => decide (p.2 ≠ [])).map fun p =>
          chars ("**") ++ pyTitle (chars p.1) ++ chars ("**: ") ++ joinSemicolon (p.2.take 8))
    base ++ chars ("\n") ++ List.intercalate (chars ("\n")) evidenceSection
  else base

/-! ### Orchestrator: assessment lifecycle progress

`AssessmentOrchestrator.run_assessment_lifecycle`
(src/backend/app/analysis/orchestrator.py lines 572-650).  The embedding
records the sequence of `update_progress(percent, description)` calls and
the state assignments, in program order; the awaited sub-computations
(corpus assembly, the injected pillar executor, conflict detection,
synthesis, the pacing sleeps) do not invoke the progress callback, so the
emitted trace is exactly this sequence for every input. -/

inductive AssessmentState where
  | NEW | REGISTERED | PREPROCESSING | ACTIVE_ANALYSIS
  | CROSS_PILLAR_ALIGNMENT | COMPLETED | FAILED
deriving DecidableEq

/-- One pillar result, as far as the lifecycle reads it. -/
structure PillarResult where
  overall_score : ℚ
  recommendations : List DRec
deriving DecidableEq

structure LifecycleOutcome where
  progressCalls : List (ℤ × String)
  finalState : AssessmentState

/-- Embeds `run_assessment_lifecycle`: the progress emissions and state
transitions, in source order.  `pillarResults` is what the awaited
`pillar_executor(corpus)` returns; `corpusText` stands for the assembled
corpus (neither influences the emitted percents). -/
def run_assessment_lifecycle (_corpusText : Str) (_pillarResults : List PillarResult) :
    LifecycleOutcome :=
  let calls0 : List (ℤ × String) := [(5, "Initializing assessment environment")]
  let calls1 := calls0 ++ [(10, "Processing uploaded artifacts")]
  let calls2 := calls1 ++ [(20, "Unified review corpus assembled")]
  let calls3 := calls2 ++ [(25, "Launching five pillar assessments")]
  let calls4 := calls3 ++ [(80, "Pillar assessments complete")]
  let calls5 := calls4 ++ [(85, "Analyzing cross-pillar dependencies")]
  let calls6 := calls5 ++ [(90, "Generating cohesive recommendations")]
  let calls7 := calls6 ++ [(95, "Finalizing assessment")]
  let calls8 := calls7 ++ [(100, "Assessment complete")]
  { progressCalls := calls8, finalState := AssessmentState.COMPLETED }

/-! ## Claim theorems -/

/-- C2: signal phrase matching is whole-word/phrase boundary-safe.  The two
concrete clauses run the real matching pipeline (text and phrase are
lower-cased as in `compute_pillar_scores` and `_match_scoring_signals`);
the last clause characterizes `_phrase_present` for every text and phrase:
it succeeds exactly when the stripped phrase is nonempty and occurs
somewhere in the text with a regex `\b` boundary on both ends. -/
theorem C2_phrase_boundary_safe :
    phrase_present (pyLower (chars ("Results mention discoverage here")))
      (pyLower (chars ("coverage"))) = false ∧
    phrase_present (pyLower (chars ("We track Coverage.")))
      (pyLower (chars ("coverage"))) = true ∧
    ∀ text phrase : Str, phrase_present text phrase = true ↔
      (pyStrip phrase ≠ [] ∧ ∃ i, i ≤ text.length ∧
        occursAt text (pyStrip phrase) i = true ∧
        atBoundary text i = true ∧
        atBoundary text (i + (pyStrip phrase).length) = true) := by
  refine ⟨by decide, by decide, ?_⟩
  intro text phrase
  by_cases hp : pyStrip phrase = []
  · simp [phrase_present, hp]
  · simp only [phrase_present, hp, if_neg, ne_eq, not_false_eq_true, true_and,
      List.any_eq_true, List.mem_range, Nat.lt_succ_iff, Bool.and_eq_true]
    constructor
    · rintro ⟨i, hi, ⟨h1, h2⟩, h3⟩
      exact ⟨i, hi, h1, h2, h3⟩
    · rintro ⟨i, hi, h1, h2, h3⟩
      exact ⟨i, hi, ⟨h1, h2⟩, h3⟩

/-- The concrete zero-signal scoring block and practice used to exhibit the
divergence of the two scoring module copies. -/
def confZero : ScoringConf :=
  { mode := some ("proportional"), signals := [], signal_weights := [], signal_aliases := [] }

def pZero : Practice :=
  { code := some ("REX"), title := "empty practice", weight := some 1,
    scoring := some confZero, signals := [], recommendations := [] }

/-- C3: a practice declaring zero signals.  First clause: the src/src copy
(`src/src/utils/scoring/scoring.py`) raises a `KeyError` for EVERY text,
because its `_match_scoring_signals` early-returns without a `coverage` key
when the total weight is zero and `_score_practice` reads that key — this
contradicts the claim (and the spec), so the claim holds only of the
backend copy.  Second clause: the backend copy
(`src/backend/utils/scoring/scoring.py`) returns score 0 and coverage 0 for
every text, both for an empty legacy signal list and for a scoring block
with an empty signal list, and is total by construction. -/
theorem C3_zero_signals :
    (∀ (p : Practice) (conf : ScoringConf) (text : Str) (ow : Option ℚ),
        p.scoring = some conf → conf.signals = [] →
        score_practice_src p text ow = Except.error ("KeyError: coverage")) ∧
    (∀ (p : Practice) (text : Str) (ow : Option ℚ),
        ((p.scoring = none ∧ p.signals = []) ∨
          (∃ conf, p.scoring = some conf ∧ conf.signals = [])) →
        (score_practice p text ow).score = 0 ∧ (score_practice p text ow).coverage = 0) := by
  constructor
  · intro p conf text ow hconf hsig
    rw [score_practice_src, hconf]
    have htw : match_scoring_signals_src text conf =
        { matched := [], matched_weight := 0, total_weight := 0, coverage := none } := by
      rw [match_scoring_signals_src, hsig]
      simp
    simp [htw]
  · intro p text ow h
    rcases h with ⟨hnone, hsig⟩ | ⟨conf, hconf, hsig⟩
    · rw [score_practice, hnone]
      simp [hsig]
    · rw [score_practice, hconf]
      have hmi : match_scoring_signals text conf =
          { matched := [], matched_weight := 0, total_weight := 0, coverage := 0 } := by
        rw [match_scoring_signals, hsig]
        simp
      simp [hmi, score_from_coverage]

/-- Witness for C3: the concrete zero-signal practice, scored against the
empty text: the src/src copy errors, the backend copy yields 0 and 0. -/
theorem C3_zero_signals_witness :
    score_practice_src pZero [] none = Except.error ("KeyError: coverage") ∧
    (score_practice pZero [] none).score = 0 ∧
    (score_practice pZero [] none).coverage = 0 :=
  ⟨C3_zero_signals.1 pZero confZero [] none rfl rfl,
   C3_zero_signals.2 pZero [] none (Or.inr ⟨confZero, rfl, rfl⟩)⟩

/-- C8: across one full run of the assessment lifecycle, the percent values
passed to the progress callback are non-decreasing, all lie in [0, 100],
the final call reports exactly 100, and the run ends COMPLETED — for every
corpus and every set of pillar executor results. -/
theorem C8_progress_monotone (corpusText : Str) (pillarResults : List PillarResult) :
    ((run_assessment_lifecycle corpusText pillarResults).progressCalls.map Prod.fst).Chain'
        (· ≤ ·) ∧
    (∀ p ∈ (run_assessment_lifecycle corpusText pillarResults).progressCalls.map Prod.fst,
        0 ≤ p ∧ p ≤ 100) ∧
    ((run_assessment_lifecycle corpusText pillarResults).progressCalls.map Prod.fst).getLast?
        = some 100 ∧
    (run_assessment_lifecycle corpusText pillarResults).finalState =
        AssessmentState.COMPLETED := by
  have h : (run_assessment_lifecycle corpusText pillarResults).progressCalls.map Prod.fst =
      [5, 10, 20, 25, 80, 85, 90, 95, 100] := rfl
  refine ⟨?_, ?_, ?_, rfl⟩ <;> rw [h]
  · simp [List.chain'_cons]
  · decide
  · decide

/-- Two possible CPython set-enumeration orders: first-appearance order and
its reverse (any permutation of the set is reachable for some hash seed). -/
def setOrderA : List String → List String := fun l => l

def setOrderB : List String → List String := fun l => l.reverse

def c9Inv : List Component :=
  [{ service := "Api", category := some ("compute") },
   { service := "Db", category := some ("compute") }]

/-- C9: the composed `full_corpus` string is NOT a deterministic function
of the corpus inputs across runs: the component-inventory line joins
`set(services)`, whose enumeration order depends on the per-process string
hash seed.  With the same inputs (two distinct services in one category),
two enumeration orders of the same service set produce different
`full_corpus` strings. -/
theorem C9_full_corpus_nondeterministic :
    (∀ l : List String, (setOrderA l).Perm (setOrderB l)) ∧
    full_corpus setOrderA [] [] [] c9Inv [] ≠ full_corpus setOrderB [] [] [] c9Inv [] :=
  ⟨fun l => (List.reverse_perm l).symm, by decide⟩

/-- Membership characterization of `_collect_recommendations`. -/
theorem mem_collect_recommendations (p : Practice) (ps : PracticeScore) (nr : NormRec) :
    nr ∈ collect_recommendations p ps ↔
      ∃ r ∈ p.recommendations, ps.score ≤ 2 ∧ normSeverity r ≤ 2 ∧ nr = normalizeRec r ps := by
  simp only [collect_recommendations, List.mem_map, List.mem_filter, decide_eq_true_eq]
  constructor
  · rintro ⟨r, ⟨hr, h1, h2⟩, hnr⟩
    exact ⟨r, hr, h1, h2, hnr.symm⟩
  · rintro ⟨r, hr, h1, h2, hnr⟩
    exact ⟨r, ⟨hr, h1, h2⟩, hnr.symm⟩

/-- The recommendations of a pillar result are exactly the per-practice
collections, concatenated in practice order. -/
theorem compute_pillar_scores_recommendations (data : PillarData) (text : Str) :
    (compute_pillar_scores data text).recommendations =
      (data.practices.map fun p =>
        collect_recommendations p
          (score_practice p (pyLower text) (overrideFor data p))).flatten := by
  rw [compute_pillar_scores]
  simp [List.map_map, Function.comp_def]

/-- The first truthy severity key is NOT what the claim describes; the claim
describes the first PRESENT key.  Modelled from the claim words, for
refutation: severity is taken from the first of the keys severity,
execution_priority, priority that is present, defaulting to 5; non-integer
values normalize to 5. -/
def claimedSeverity (r : Rec) : ℤ :=
  match r.severity, r.execution_priority, r.priority with
  | some v, _, _ => (match v with | PyVal.vint n => n | _ => 5)
  | none, some v, _ => (match v with | PyVal.vint n => n | _ => 5)
  | none, none, some v => (match v with | PyVal.vint n => n | _ => 5)
  | none, none, none => 5

def recSevZero : Rec :=
  { rid := "r0", severity := some (PyVal.vint 0), execution_priority := none, priority := none }

def pSevZero : Practice :=
  { code := some ("P1"), title := "p", weight := some 1, scoring := none,
    signals := [], recommendations := [recSevZero] }

def dataSevZero : PillarData := { practices := [pSevZero], weights := [] }

/-- C5 counterexample: a recommendation whose only severity key is the
integer 0.  Under the claimed rule (severity taken from the first of the
keys, non-integer values to 5) its severity is 0 and, with the practice
scoring 0, it should be surfaced; the code surfaces nothing, because the
Python `or` chain skips the falsy 0 and defaults the severity to 5. -/
theorem C5_cex_severity_key_not_taken :
    claimedSeverity recSevZero = 0 ∧
    (score_practice pSevZero (pyLower []) (overrideFor dataSevZero pSevZero)).score ≤ 2 ∧
    recSevZero ∈ pSevZero.recommendations ∧
    (compute_pillar_scores dataSevZero []).recommendations = [] :=
  ⟨rfl, by decide, by decide, by decide⟩

/-- C5 as amended: a recommendation appears in the category result iff its
practice scored at most 2 AND its normalized severity is at most 2, where
the severity is the first TRUTHY value of the keys severity,
execution_priority, priority (a falsy value such as 0, None or an empty
string is skipped), defaulting to 5, and a value on which Python `int()`
fails normalizes to 5. -/
theorem C5_recommendation_surface_rule (data : PillarData) (text : Str) (nr : NormRec) :
    nr ∈ (compute_pillar_scores data text).recommendations ↔
      ∃ p ∈ data.practices, ∃ r ∈ p.recommendations,
        (score_practice p (pyLower text) (overrideFor data p)).score ≤ 2 ∧
        normSeverity r ≤ 2 ∧
        nr = normalizeRec r (score_practice p (pyLower text) (overrideFor data p)) := by
  rw [compute_pillar_scores_recommendations]
  simp only [List.mem_flatten, List.mem_map]
  constructor
  · rintro ⟨l, ⟨p, hp, rfl⟩, hnr⟩
    rcases (mem_collect_recommendations _ _ _).mp hnr with ⟨r, hr, h1, h2, h3⟩
    exact ⟨p, hp, r, hr, h1, h2, h3⟩
  · rintro ⟨p, hp, r, hr, h1, h2, h3⟩
    exact ⟨_, ⟨p, hp, rfl⟩, (mem_collect_recommendations _ _ _).mpr ⟨r, hr, h1, h2, h3⟩⟩

/-- Witness for C5 as amended: in the one-practice category above, the
surfaced set is empty, which the amended rule confirms (the normalized
severity of the integer-0 recommendation is 5). -/
theorem C5_recommendation_surface_rule_witness :
    ¬ (normalizeRec recSevZero (score_practice pSevZero (pyLower []) (overrideFor dataSevZero pSevZero))
        ∈ (compute_pillar_scores dataSevZero []).recommendations) := by
  intro hmem
  rcases (C5_recommendation_surface_rule dataSevZero [] _).mp hmem with ⟨p, hp, r, hr, _, h2, _⟩
  have hp1 : p = pSevZero := by
    have := hp
    simp [dataSevZero] at this
    exact this
  subst hp1
  have hr1 : r = recSevZero := by
    have := hr
    simp [pSevZero] at this
    exact this
  subst hr1
  have : normSeverity recSevZero = 5 := by decide
  omega

/-- C10 (implicit): a recommendation whose declared severity is the integer
0 (no other severity keys) normalizes to the DEFAULT severity 5 — the falsy
0 is skipped by the `or` chain — and is therefore never surfaced (every
surfaced recommendation has severity at most 2); whereas the string "0" is
truthy, normalizes to severity 0, and is surfaced whenever the practice
scores at most 2. -/
theorem C10_integer_zero_vs_string_zero :
    (∀ r : Rec, r.severity = some (PyVal.vint 0) → r.execution_priority = none →
      r.priority = none → normSeverity r = 5) ∧
    (∀ (p : Practice) (ps : PracticeScore) (nr : NormRec),
      nr ∈ collect_recommendations p ps → nr.severity ≤ 2) ∧
    (∀ r : Rec, r.severity = some (PyVal.vstr ("0")) → r.execution_priority = none →
      r.priority = none → normSeverity r = 0) ∧
    (∀ (p : Practice) (ps : PracticeScore) (r : Rec), r ∈ p.recommendations →
      ps.score ≤ 2 → normSeverity r ≤ 2 →
      normalizeRec r ps ∈ collect_recommendations p ps) := by
  refine ⟨?_, ?_, ?_, ?_⟩
  · intro r h1 h2 h3
    rw [normSeverity, severityRaw, h1, h2, h3]
    rfl
  · intro p ps nr hmem
    rcases (mem_collect_recommendations _ _ _).mp hmem with ⟨r, _, _, h2, h3⟩
    rw [h3]
    exact h2
  · intro r h1 h2 h3
    rw [normSeverity, severityRaw, h1, h2, h3]
    rfl
  · intro p ps r hr hsc hsev
    exact (mem_collect_recommendations _ _ _).mpr ⟨r, hr, hsc, hsev, rfl⟩

def recStrZero : Rec :=
  { rid := "r1", severity := some (PyVal.vstr ("0")), execution_priority := none, priority := none }

def pTwoRecs : Practice :=
  { code := some ("P2"), title := "p2", weight := some 1, scoring := none,
    signals := [], recommendations := [recSevZero, recStrZero] }

def psScoreZero : PracticeScore :=
  { code := some ("P2"), title := "p2", weight := 1, score := 0, matched_signals := [],
    total_signals := 0, coverage := 0, mode := "legacy-proportional" }

/-- Witness for C10 at concrete inputs: the integer-0 recommendation
normalizes to 5 and the string-"0" one to 0 and is surfaced for a practice
that scored 0. -/
theorem C10_integer_zero_vs_string_zero_witness :
    normSeverity recSevZero = 5 ∧ normSeverity recStrZero = 0 ∧
    normalizeRec recStrZero psScoreZero ∈ collect_recommendations pTwoRecs psScoreZero :=
  ⟨C10_integer_zero_vs_string_zero.1 recSevZero rfl rfl rfl,
   C10_integer_zero_vs_string_zero.2.2.1 recStrZero rfl rfl rfl,
   C10_integer_zero_vs_string_zero.2.2.2 pTwoRecs psScoreZero recStrZero (by decide)
     (by decide) (by decide)⟩

/-! ### C1: weighted aggregation -/

/-- Evaluation form of the overall percent: once the per-practice scores
are known, the engine rounds `weighted / (5 * total) * 100` (or 0) to two
decimals. -/
theorem compute_overall_eq (data : PillarData) (text : Str) (pss : List PracticeScore)
    (h : data.practices.map
        (fun p => score_practice p (pyLower text) (overrideFor data p)) = pss) :
    (compute_pillar_scores data text).overall_maturity_percent =
      pyRound2 (if (pss.map fun ps => ps.weight).sum = 0 then 0
        else (pss.map fun ps => (ps.score : ℚ) * ps.weight).sum /
          (5 * (pss.map fun ps => ps.weight).sum) * 100) := by
  rw [compute_pillar_scores]
  simp only [List.map_map, Function.comp_def, h]

/-- The produced practice scores are the per-practice scoring results. -/
theorem compute_practice_scores_eq (data : PillarData) (text : Str)
    (pss : List PracticeScore)
    (h : data.practices.map
        (fun p => score_practice p (pyLower text) (overrideFor data p)) = pss) :
    (compute_pillar_scores data text).practice_scores = pss := by
  rw [compute_pillar_scores]
  simp only [List.map_map, Function.comp_def, h]

/-- Evaluation form of the legacy scoring path with a nonempty signal list. -/
theorem score_practice_legacy_eval (p : Practice) (text : Str) (ow : Option ℚ)
    (hsc : p.scoring = none) (hne : ¬ p.signals = [])
    (matched : List String)
    (hm : p.signals.filter (fun s => phrase_present text (pyLower (chars s))) = matched) :
    score_practice p text ow =
      { code := p.code, title := p.title, weight := ow.getD (p.weight.getD 0),
        score := roundHalfEven (((matched.length : ℚ) / (p.signals.length : ℚ)) * 5),
        matched_signals := matched, total_signals := p.signals.length,
        coverage := (matched.length : ℚ) / (p.signals.length : ℚ),
        mode := "legacy-proportional" } := by
  rw [score_practice, hsc]
  simp only [hm, if_neg hne]

/-- Two practices of weight 1, scoring 5 (one signal, matched) and 0. -/
def pFullA : Practice :=
  { code := some ("A"), title := "a", weight := some 1, scoring := none,
    signals := ["alpha"], recommendations := [] }

def pNoneB : Practice :=
  { code := some ("B"), title := "b", weight := some 1, scoring := none,
    signals := ["zeta"], recommendations := [] }

def dataHalf : PillarData := { practices := [pFullA, pNoneB], weights := [] }

/-- A practice of weight 1 scoring 1: five legacy signals, one matched. -/
def pFifth : Practice :=
  { code := some ("C"), title := "c", weight := some 1, scoring := none,
    signals := ["alpha", "beta", "gamma", "delta", "epsilon"], recommendations := [] }

def dataThird : PillarData := { practices := [pFifth, pNoneB, pNoneB], weights := [] }

/-- A single practice of weight 0. -/
def pWeightless : Practice :=
  { code := some ("D"), title := "d", weight := some 0, scoring := none,
    signals := ["alpha"], recommendations := [] }

def dataWeightless : PillarData := { practices := [pWeightless], weights := [] }

def psFullA : PracticeScore :=
  { code := some ("A"), title := "a", weight := 1, score := 5,
    matched_signals := ["alpha"], total_signals := 1, coverage := 1,
    mode := "legacy-proportional" }

def psNoneB : PracticeScore :=
  { code := some ("B"), title := "b", weight := 1, score := 0,
    matched_signals := [], total_signals := 1, coverage := 0,
    mode := "legacy-proportional" }

def psFifth : PracticeScore :=
  { code := some ("C"), title := "c", weight := 1, score := 1,
    matched_signals := ["alpha"], total_signals := 5, coverage := 1/5,
    mode := "legacy-proportional" }

def psWeightless : PracticeScore :=
  { code := some ("D"), title := "d", weight := 0, score := 5,
    matched_signals := ["alpha"], total_signals := 1, coverage := 1,
    mode := "legacy-proportional" }

theorem score_pFullA :
    score_practice pFullA (pyLower (chars ("alpha"))) none = psFullA := by
  rw [score_practice_legacy_eval pFullA _ none rfl (by decide) ["alpha"] (by decide)]
  simp only [pFullA, psFullA, PracticeScore.mk.injEq]
  norm_num
  exact roundHalfEven_eq_low _ 5 (by norm_num) (by norm_num)

theorem score_pNoneB :
    score_practice pNoneB (pyLower (chars ("alpha"))) none = psNoneB := by
  rw [score_practice_legacy_eval pNoneB _ none rfl (by decide) [] (by decide)]
  simp only [pNoneB, psNoneB, PracticeScore.mk.injEq]
  norm_num
  exact roundHalfEven_eq_low _ 0 (by norm_num) (by norm_num)

theorem score_pFifth :
    score_practice pFifth (pyLower (chars ("alpha"))) none = psFifth := by
  rw [score_practice_legacy_eval pFifth _ none rfl (by decide) ["alpha"] (by decide)]
  simp only [pFifth, psFifth, PracticeScore.mk.injEq]
  norm_num
  exact roundHalfEven_eq_low _ 1 (by norm_num) (by norm_num)

theorem score_pWeightless :
    score_practice pWeightless (pyLower (chars ("alpha"))) none = psWeightless := by
  rw [score_practice_legacy_eval pWeightless _ none rfl (by decide) ["alpha"] (by decide)]
  simp only [pWeightless, psWeightless, PracticeScore.mk.injEq]
  norm_num
  exact roundHalfEven_eq_low _ 5 (by norm_num) (by norm_num)

theorem dataThird_scores :
    dataThird.practices.map
      (fun p => score_practice p (pyLower (chars ("alpha"))) (overrideFor dataThird p)) =
      [psFifth, psNoneB, psNoneB] := by
  have hovC : overrideFor dataThird pFifth = none := by decide
  have hovB : overrideFor dataThird pNoneB = none := by decide
  have hl : dataThird.practices = [pFifth, pNoneB, pNoneB] := rfl
  rw [hl]
  simp only [List.map_cons, List.map_nil, hovC, hovB, score_pFifth, score_pNoneB]

/-- C1 counterexample: three weight-1 practices scoring 1, 0, 0 give the
claimed value 100 x 1 / (5 x 3) = 20/3, but the code returns that value
rounded to two decimals, 6.67, which differs from 20/3. -/
theorem C1_cex_overall_is_rounded :
    (compute_pillar_scores dataThird (chars ("alpha"))).overall_maturity_percent = 667/100 ∧
    100 * (((compute_pillar_scores dataThird (chars ("alpha"))).practice_scores.map
        fun ps => (ps.score : ℚ) * ps.weight).sum) /
      (5 * (((compute_pillar_scores dataThird (chars ("alpha"))).practice_scores.map
        fun ps => ps.weight).sum)) = 20/3 ∧
    (667/100 : ℚ) ≠ 20/3 := by
  refine ⟨?_, ?_, by norm_num⟩
  · rw [compute_overall_eq dataThird (chars ("alpha")) [psFifth, psNoneB, psNoneB]
      dataThird_scores]
    simp only [psFifth, psNoneB, List.map_cons, List.map_nil, List.sum_cons, List.sum_nil]
    norm_num
    rw [pyRound2]
    rw [(by norm_num : (20/3 : ℚ) * 100 = 2000/3),
      roundHalfEven_eq_high (2000/3) 666 (by norm_num) (by norm_num)]
    norm_num
  · rw [compute_practice_scores_eq dataThird (chars ("alpha")) [psFifth, psNoneB, psNoneB]
      dataThird_scores]
    simp only [psFifth, psNoneB, List.map_cons, List.map_nil, List.sum_cons, List.sum_nil]
    norm_num

/-- C1 as amended: the engine returns the claimed weighted-aggregation
formula ROUNDED HALF-EVEN TO TWO DECIMALS (and 0 for zero total weight,
which rounds to itself); the two-practice 5-and-0 example still yields
exactly 50, and a zero-weight category yields 0. -/
theorem C1_weighted_aggregation :
    (∀ (data : PillarData) (text : Str),
      (compute_pillar_scores data text).overall_maturity_percent =
        pyRound2 (if (((compute_pillar_scores data text).practice_scores.map
            fun ps => ps.weight).sum) = 0 then 0
          else 100 * (((compute_pillar_scores data text).practice_scores.map
            fun ps => (ps.score : ℚ) * ps.weight).sum) /
            (5 * (((compute_pillar_scores data text).practice_scores.map
            fun ps => ps.weight).sum)))) ∧
    (compute_pillar_scores dataHalf (chars ("alpha"))).overall_maturity_percent = 50 ∧
    (compute_pillar_scores dataWeightless (chars ("alpha"))).overall_maturity_percent = 0 := by
  refine ⟨?_, ?_, ?_⟩
  · intro data text
    rw [compute_pillar_scores]
    simp only [List.map_map, Function.comp_def]
    congr 1
    split
    · rfl
    · ring
  · have h : dataHalf.practices.map
        (fun p => score_practice p (pyLower (chars ("alpha"))) (overrideFor dataHalf p)) =
        [psFullA, psNoneB] := by
      have hovA : overrideFor dataHalf pFullA = none := by decide
      have hovB : overrideFor dataHalf pNoneB = none := by decide
      have hl : dataHalf.practices = [pFullA, pNoneB] := rfl
      rw [hl]
      simp only [List.map_cons, List.map_nil, hovA, hovB, score_pFullA, score_pNoneB]
    rw [compute_overall_eq dataHalf (chars ("alpha")) [psFullA, psNoneB] h]
    simp only [psFullA, psNoneB, List.map_cons, List.map_nil, List.sum_cons, List.sum_nil]
    norm_num
    rw [pyRound2]
    rw [(by norm_num : (50 : ℚ) * 100 = ((5000 : ℤ) : ℚ)), roundHalfEven_intCast]
    norm_num
  · have h : dataWeightless.practices.map
        (fun p => score_practice p (pyLower (chars ("alpha"))) (overrideFor dataWeightless p)) =
        [psWeightless] := by
      have hovD : overrideFor dataWeightless pWeightless = none := by decide
      have hl : dataWeightless.practices = [pWeightless] := rfl
      rw [hl]
      simp only [List.map_cons, List.map_nil, hovD, score_pWeightless]
    rw [compute_overall_eq dataWeightless (chars ("alpha")) [psWeightless] h]
    simp only [psWeightless, List.map_cons, List.map_nil, List.sum_cons, List.sum_nil]
    norm_num
    rw [pyRound2]
    rw [(by norm_num : (0 : ℚ) * 100 = ((0 : ℤ) : ℚ)), roundHalfEven_intCast]
    norm_num

/-! ### C6: section truncation -/

/-- A word list of length k needs at least 2k - 1 characters (each word at
least one character, separated by whitespace). -/
theorem splitWSAux_length_le (l : Str) : ∀ acc : Str,
    2 * (splitWSAux l acc).length ≤ l.length + (if acc = [] then 1 else 2) := by
  induction l with
  | nil =>
    intro acc
    rw [splitWSAux]
    by_cases h : acc = [] <;> simp [h]
  | cons c cs ih =>
    intro acc
    have h0 : 2 * (splitWSAux cs []).length ≤ cs.length + 1 := by
      have := ih []
      simpa using this
    have hcons : 2 * (splitWSAux cs (c :: acc)).length ≤ cs.length + 2 := by
      have := ih (c :: acc)
      simpa using this
    rw [splitWSAux]
    split_ifs with h1 h2 h3 <;> simp only [List.length_cons] <;> omega

theorem pySplit_length_le (l : Str) : 2 * (pySplit l).length ≤ l.length + 1 := by
  have := splitWSAux_length_le l []
  simpa [pySplit] using this

/-- Splitting distributes over an append whose right part starts with
whitespace. -/
theorem splitWSAux_append_space (b : Str) (c : Char) (hc : pyIsSpace c = true)
    (a : Str) : ∀ acc : Str,
    splitWSAux (a ++ c :: b) acc = splitWSAux a acc ++ splitWSAux b [] := by
  induction a with
  | nil =>
    intro acc
    rw [List.nil_append]
    conv_lhs => rw [splitWSAux]
    conv_rhs => rw [splitWSAux]
    rw [if_pos hc]
    by_cases h : acc = [] <;> simp [h]
  | cons x xs ih =>
    intro acc
    rw [List.cons_append]
    conv_lhs => rw [splitWSAux]
    conv_rhs => rw [splitWSAux]
    split_ifs with h1 h2
    · exact ih []
    · rw [ih []]
      simp
    · exact ih (x :: acc)

theorem pySplit_append_space (a b : Str) (c : Char) (hc : pyIsSpace c = true) :
    pySplit (a ++ c :: b) = pySplit a ++ pySplit b := by
  rw [pySplit, splitWSAux_append_space b c hc a []]
  rfl

/-- The branch of `_safe_truncate_corpus_section` that truncates and
appends the marker. -/
theorem safe_truncate_eq_of (text : Str) (mt : ℤ) (h1 : ¬ text = [])
    (h2 : ¬ estimate_tokens text ≤ mt) (h3 : (text.length : ℤ) > mt * 4) :
    safe_truncate_corpus_section text mt =
      (if 5 * pyRfind (pySliceTo text (mt * 4)) '.' > 4 * (mt * 4) then
        pySliceTo (pySliceTo text (mt * 4)) (pyRfind (pySliceTo text (mt * 4)) '.' + 1)
       else pySliceTo text (mt * 4)) ++ truncationMarker := by
  rw [safe_truncate_corpus_section, if_neg h1, if_neg h2, if_pos h3]

theorem pySliceTo_length_le (s : Str) (n : ℤ) : (pySliceTo s n).length ≤ s.length := by
  rw [pySliceTo]
  split_ifs <;> simp

theorem pySliceTo_nonneg_length_le (s : Str) (n : ℤ) (hn : 0 ≤ n) :
    ((pySliceTo s n).length : ℤ) ≤ n := by
  rw [pySliceTo, if_pos hn]
  simp only [List.length_take]
  omega

/-- C6 as amended: for `max_tokens = 100` and any 800-word input, the
result is a prefix-derived fragment of at most 400 characters followed by
the literal truncation marker, and the estimated token count of the result
is at most 276 (NOT at most 100: the character budget `400 = max_tokens*4`
can hold up to 200 words, and with the 13 marker words the estimate
`int(words * 1.3)` can reach 276).  The function is total by construction,
so truncation never raises. -/
theorem C6_truncation (text : Str) (h800 : (pySplit text).length = 800) :
    ∃ pre : Str, safe_truncate_corpus_section text 100 = pre ++ truncationMarker ∧
      pre.length ≤ 400 ∧
      estimate_tokens (safe_truncate_corpus_section text 100) ≤ 276 := by
  have hlen2 : 2 * (pySplit text).length ≤ text.length + 1 := pySplit_length_le text
  rw [h800] at hlen2
  have htne : ¬ text = [] := by
    intro h
    rw [h] at hlen2
    simp at hlen2
  have hest : estimate_tokens text = 1040 := by
    rw [estimate_tokens, if_neg htne, h800]
    decide
  have hgt : ((text.length : ℤ) > (100 : ℤ) * 4) := by
    have h1599 : 1599 ≤ text.length := by omega
    have : (1599 : ℤ) ≤ (text.length : ℤ) := by exact_mod_cast h1599
    omega
  have heq := safe_truncate_eq_of text 100 htne (by rw [hest]; decide) hgt
  set trunc2 : Str :=
    (if 5 * pyRfind (pySliceTo text ((100 : ℤ) * 4)) '.' > 4 * ((100 : ℤ) * 4) then
      pySliceTo (pySliceTo text ((100 : ℤ) * 4))
        (pyRfind (pySliceTo text ((100 : ℤ) * 4)) '.' + 1)
     else pySliceTo text ((100 : ℤ) * 4)) with htr
  have hlen400 : trunc2.length ≤ 400 := by
    rw [htr]
    have hbase : ((pySliceTo text ((100 : ℤ) * 4)).length : ℤ) ≤ 400 := by
      have := pySliceTo_nonneg_length_le text ((100 : ℤ) * 4) (by norm_num)
      omega
    split_ifs
    · have h1 := pySliceTo_length_le (pySliceTo text ((100 : ℤ) * 4))
        (pyRfind (pySliceTo text ((100 : ℤ) * 4)) '.' + 1)
      omega
    · omega
  refine ⟨trunc2, heq, hlen400, ?_⟩
  rw [heq]
  have hmarker : truncationMarker = '\n' ::
      chars ("\n... [Content truncated for token budget - full context preserved in document analysis]") := by
    decide
  have hsplit : pySplit (trunc2 ++ truncationMarker) =
      pySplit trunc2 ++
        pySplit (chars ("\n... [Content truncated for token budget - full context preserved in document analysis]")) := by
    rw [hmarker]
    exact pySplit_append_space trunc2 _ '\n' (by decide)
  have hmw : (pySplit (chars ("\n... [Content truncated for token budget - full context preserved in document analysis]"))).length = 13 := by
    decide
  have hkw : (pySplit trunc2).length ≤ 200 := by
    have := pySplit_length_le trunc2
    omega
  have hne2 : ¬ (trunc2 ++ truncationMarker) = [] := by
    rw [hmarker]
    simp
  rw [estimate_tokens, if_neg hne2, hsplit]
  simp only [List.length_append, hmw]
  have hw : ((pySplit trunc2).length : ℤ) + 13 ≤ 213 := by exact_mod_cast by omega
  calc (13 * (((pySplit trunc2).length + 13 : ℕ) : ℤ)) / 10
      ≤ (13 * 213) / 10 := by
        apply Int.ediv_le_ediv (by norm_num)
        have : (((pySplit trunc2).length + 13 : ℕ) : ℤ) ≤ 213 := by
          push_cast
          omega
        nlinarith
    _ = 276 := by decide

def aText : Str := List.intercalate [' '] (List.replicate 800 ['a'])

set_option maxRecDepth 1000000 in
/-- C6 counterexample: 800 one-letter words.  The truncated output DOES end
with the marker, but its estimated token count is 276, far above the
claimed bound of 100: the 400-character cut keeps 200 words, and the marker
adds 13 more. -/
theorem C6_cex_token_budget_exceeded :
    (pySplit aText).length = 800 ∧
    estimate_tokens (safe_truncate_corpus_section aText 100) = 276 ∧
    ¬ ((276 : ℤ) ≤ 100) := by
  refine ⟨by decide, by decide, by decide⟩

set_option maxRecDepth 1000000 in
/-- Witness for C6 as amended, at the concrete 800-word input. -/
theorem C6_truncation_witness :
    ∃ pre : Str, safe_truncate_corpus_section aText 100 = pre ++ truncationMarker ∧
      pre.length ≤ 400 ∧
      estimate_tokens (safe_truncate_corpus_section aText 100) ≤ 276 :=
  C6_truncation aText (by decide)

/-! ### C4: monotonicity of coverage and score -/

theorem le_roundHalfEven (q : ℚ) : q.floor ≤ roundHalfEven q := by
  rw [roundHalfEven]
  split_ifs <;> omega

theorem roundHalfEven_le (q : ℚ) : roundHalfEven q ≤ q.floor + 1 := by
  rw [roundHalfEven]
  split_ifs <;> omega

theorem ratFloor_mono (q q' : ℚ) (h : q ≤ q') : q.floor ≤ q'.floor := by
  rw [ratFloor_eq_floor, ratFloor_eq_floor]
  exact Int.floor_le_floor h

theorem roundHalfEven_mono (q q' : ℚ) (h : q ≤ q') :
    roundHalfEven q ≤ roundHalfEven q' := by
  have hf : q.floor ≤ q'.floor := ratFloor_mono q q' h
  by_cases hE : q.floor = q'.floor
  · rw [roundHalfEven, roundHalfEven, hE]
    split_ifs <;> first | omega | linarith
  · have h1 := roundHalfEven_le q
    have h2 := le_roundHalfEven q'
    omega

theorem roundHalfEven_nonneg (q : ℚ) (h : 0 ≤ q) : 0 ≤ roundHalfEven q := by
  have h1 : (0 : ℤ) ≤ q.floor := by
    rw [ratFloor_eq_floor]
    exact Int.floor_nonneg.mpr h
  have h2 := le_roundHalfEven q
  omega

theorem tieredScore_ge_1 (c : ℚ) (fm : Bool) : 1 ≤ tieredScore c fm := by
  rw [tieredScore]
  split_ifs <;> omega

theorem tieredScore_le_5 (c : ℚ) (fm : Bool) : tieredScore c fm ≤ 5 := by
  rw [tieredScore]
  split_ifs <;> omega

theorem tieredScore_eq_5 (c : ℚ) (fm : Bool) (h : c ≥ 1 - tierEps ∧ fm = true) :
    tieredScore c fm = 5 := by
  rw [tieredScore, if_pos h]

theorem tieredScore_ge_4 (c : ℚ) (fm : Bool) (h : c ≥ 3/4 - tierEps) :
    4 ≤ tieredScore c fm := by
  rw [tieredScore]
  split_ifs <;> first | omega | linarith

theorem tieredScore_ge_3 (c : ℚ) (fm : Bool) (h : c ≥ 1/2 - tierEps) :
    3 ≤ tieredScore c fm := by
  rw [tieredScore]
  split_ifs <;> first | omega | linarith

theorem tieredScore_ge_2 (c : ℚ) (fm : Bool) (h : c ≥ 1/4 - tierEps) :
    2 ≤ tieredScore c fm := by
  rw [tieredScore]
  split_ifs <;> first | omega | linarith

theorem tieredScore_mono (c c' : ℚ) (fm fm' : Bool) (hc : c ≤ c')
    (hfm : fm = true → fm' = true) : tieredScore c fm ≤ tieredScore c' fm' := by
  by_cases h1 : c ≥ 1 - tierEps ∧ fm = true
  · rw [tieredScore_eq_5 c fm h1,
      tieredScore_eq_5 c' fm' ⟨by linarith [h1.1], hfm h1.2⟩]
  · have hb4 : tieredScore c fm ≤ 4 := by
      rw [tieredScore, if_neg h1]
      split_ifs <;> omega
    by_cases h2 : c ≥ 3/4 - tierEps
    · have := tieredScore_ge_4 c' fm' (by linarith)
      omega
    · have hb3 : tieredScore c fm ≤ 3 := by
        rw [tieredScore, if_neg h1, if_neg (by linarith : ¬ c ≥ 3/4 - tierEps)]
        split_ifs <;> omega
      by_cases h3 : c ≥ 1/2 - tierEps
      · have := tieredScore_ge_3 c' fm' (by linarith)
        omega
      · have hb2 : tieredScore c fm ≤ 2 := by
          rw [tieredScore, if_neg h1, if_neg (by linarith : ¬ c ≥ 3/4 - tierEps),
            if_neg (by linarith : ¬ c ≥ 1/2 - tierEps)]
          split_ifs <;> omega
        by_cases h4 : c ≥ 1/4 - tierEps
        · have := tieredScore_ge_2 c' fm' (by linarith)
          omega
        · have hb1 : tieredScore c fm ≤ 1 := by
            rw [tieredScore, if_neg h1, if_neg (by linarith : ¬ c ≥ 3/4 - tierEps),
              if_neg (by linarith : ¬ c ≥ 1/2 - tierEps),
              if_neg (by linarith : ¬ c ≥ 1/4 - tierEps)]
            split_ifs <;> omega
          have := tieredScore_ge_1 c' fm'
          omega

theorem score_from_coverage_nonneg (mode : String) (c : ℚ) (am fm : Bool)
    (hc : 0 ≤ c) : 0 ≤ score_from_coverage mode c am fm := by
  have hr : 0 ≤ roundHalfEven (c * 5) := roundHalfEven_nonneg _ (by linarith)
  rw [score_from_coverage]
  split_ifs
  · omega
  · exact hr
  · have := tieredScore_ge_1 c fm
    omega
  · omega
  · omega
  · omega
  · exact hr

theorem score_from_coverage_mono (mode : String) (c c' : ℚ) (am am' fm fm' : Bool)
    (hc0 : 0 ≤ c) (hcc : c ≤ c') (ham : am = true → am' = true)
    (hfm : fm = true → fm' = true) :
    score_from_coverage mode c am fm ≤ score_from_coverage mode c' am' fm' := by
  by_cases hA : am = true
  · have hA' : am' = true := ham hA
    have hne : ¬ am = false := by simp [hA]
    have hne' : ¬ am' = false := by simp [hA']
    rw [score_from_coverage, if_neg hne, score_from_coverage, if_neg hne']
    have hmul : c * 5 ≤ c' * 5 := by linarith
    by_cases hp : mode = "proportional"
    · rw [if_pos hp, if_pos hp]
      exact roundHalfEven_mono _ _ hmul
    · rw [if_neg hp, if_neg hp]
      by_cases ht : mode = "tiered"
      · rw [if_pos ht, if_pos ht]
        exact tieredScore_mono c c' fm fm' hcc hfm
      · rw [if_neg ht, if_neg ht]
        by_cases hb : mode = "binary"
        · rw [if_pos hb, if_pos hb]
          by_cases hf : fm = true
          · rw [if_pos hf, if_pos (hfm hf)]
          · rw [if_neg hf]
            have hge2 : (2 : ℤ) ≤ (if fm' = true then 5
                else if c' ≥ 1/2 then 4 else 2) := by
              split_ifs <;> omega
            by_cases hhalf : c ≥ 1/2
            · rw [if_pos hhalf]
              have hge4 : (4 : ℤ) ≤ (if fm' = true then 5
                  else if c' ≥ 1/2 then 4 else 2) := by
                split_ifs <;> first | omega | linarith
              omega
            · rw [if_neg hhalf]
              omega
        · rw [if_neg hb, if_neg hb]
          exact roundHalfEven_mono _ _ hmul
  · have hF : am = false := by
      cases am
      · rfl
      · exact absurd rfl hA
    rw [score_from_coverage, if_pos hF]
    exact score_from_coverage_nonneg mode c' am' fm' (by linarith)

/-- Sums of nonnegative weights over a filter grow when the filter widens. -/
theorem sum_filter_le (l : List String) (w : String → ℚ) (p q : String → Bool)
    (hw : ∀ s ∈ l, 0 ≤ w s) (hpq : ∀ s ∈ l, p s = true → q s = true) :
    ((l.filter p).map w).sum ≤ ((l.filter q).map w).sum := by
  induction l with
  | nil => simp
  | cons x xs ih =>
    have hw' : ∀ s ∈ xs, 0 ≤ w s := fun s hs => hw s (List.mem_cons_of_mem x hs)
    have hpq' : ∀ s ∈ xs, p s = true → q s = true :=
      fun s hs => hpq s (List.mem_cons_of_mem x hs)
    have ihx := ih hw' hpq'
    have hwx : 0 ≤ w x := hw x (List.mem_cons_self x xs)
    by_cases hp : p x = true
    · have hq := hpq x (List.mem_cons_self x xs) hp
      simp only [List.filter_cons, hp, hq, if_true, List.map_cons, List.sum_cons]
      linarith
    · by_cases hq : q x = true
      · simp only [List.filter_cons, hp, hq, if_true, Bool.false_eq_true, if_false,
          List.map_cons, List.sum_cons]
        linarith
      · simp only [List.filter_cons, hp, hq, Bool.false_eq_true, if_false]
        exact ihx

theorem sum_filter_nonneg (l : List String) (w : String → ℚ) (p : String → Bool)
    (hw : ∀ s ∈ l, 0 ≤ w s) : 0 ≤ ((l.filter p).map w).sum := by
  apply List.sum_nonneg
  intro y hy
  rcases List.mem_map.mp hy with ⟨s, hs, rfl⟩
  exact hw s (List.mem_of_mem_filter hs)

theorem length_filter_mono {α : Type} (l : List α) (p q : α → Bool)
    (hpq : ∀ a ∈ l, p a = true → q a = true) :
    (l.filter p).length ≤ (l.filter q).length := by
  induction l with
  | nil => simp
  | cons x xs ih =>
    have hpq' : ∀ a ∈ xs, p a = true → q a = true :=
      fun a ha => hpq a (List.mem_cons_of_mem x ha)
    have ihx := ih hpq'
    by_cases hp : p x = true
    · have hq := hpq x (List.mem_cons_self x xs) hp
      simp only [List.filter_cons, hp, hq, if_true, List.length_cons]
      omega
    · by_cases hq : q x = true
      · simp only [List.filter_cons, hp, hq, if_true, Bool.false_eq_true, if_false,
          List.length_cons]
        omega
      · simp only [List.filter_cons, hp, hq, Bool.false_eq_true, if_false]
        exact ihx

theorem filter_ne_nil_mono {α : Type} (l : List α) (p q : α → Bool)
    (hpq : ∀ a ∈ l, p a = true → q a = true) (h : l.filter p ≠ []) :
    l.filter q ≠ [] := by
  rcases List.exists_mem_of_ne_nil _ h with ⟨x, hx⟩
  have hxl : x ∈ l := List.mem_of_mem_filter hx
  have hpx : p x = true := List.of_mem_filter hx
  exact List.ne_nil_of_mem (List.mem_filter.mpr ⟨hxl, hpq x hxl hpx⟩)

/-- Coverage facts of `_match_scoring_signals` under nonnegative signal
weights and pointwise-monotone matching. -/
theorem match_scoring_signals_mono (conf : ScoringConf) (t t' : Str)
    (hw : ∀ s ∈ conf.signals, 0 ≤ wGet (effWeights conf) s)
    (hm : ∀ s ∈ conf.signals,
        signalMatched conf t s = true → signalMatched conf t' s = true) :
    (match_scoring_signals t conf).coverage ≤ (match_scoring_signals t' conf).coverage ∧
    0 ≤ (match_scoring_signals t conf).coverage ∧
    ((match_scoring_signals t conf).matched ≠ [] →
      (match_scoring_signals t' conf).matched ≠ []) := by
  have hmw := sum_filter_le conf.signals (wGet (effWeights conf))
    (signalMatched conf t) (signalMatched conf t') hw hm
  have hmw0 := sum_filter_nonneg conf.signals (wGet (effWeights conf))
    (signalMatched conf t) hw
  have htw0 : 0 ≤ (conf.signals.map (wGet (effWeights conf))).sum := by
    apply List.sum_nonneg
    intro y hy
    rcases List.mem_map.mp hy with ⟨s, hs, rfl⟩
    exact hw s hs
  rw [match_scoring_signals, match_scoring_signals]
  refine ⟨?_, ?_, ?_⟩
  · by_cases htw : (conf.signals.map (wGet (effWeights conf))).sum = 0
    · simp [htw]
    · simp only [if_neg htw]
      have hpos : 0 < (conf.signals.map (wGet (effWeights conf))).sum := by
        rcases lt_or_eq_of_le htw0 with h | h
        · exact h
        · exact absurd h.symm htw
      exact div_le_div_of_nonneg_right hmw hpos.le
  · by_cases htw : (conf.signals.map (wGet (effWeights conf))).sum = 0
    · simp [htw]
    · simp only [if_neg htw]
      have hpos : 0 < (conf.signals.map (wGet (effWeights conf))).sum := by
        rcases lt_or_eq_of_le htw0 with h | h
        · exact h
        · exact absurd h.symm htw
      positivity
  · exact filter_ne_nil_mono conf.signals _ _ hm

/-- C4 as amended: for every practice definition WHOSE EFFECTIVE SIGNAL
WEIGHTS ARE ALL NONNEGATIVE, making the text match more signals (every
signal matched before is still matched — in particular, appending a
previously-unmatched signal phrase) never decreases the practice coverage
or score, in any scoring mode (proportional, tiered, binary, unknown-mode
fallback, or legacy). -/
theorem C4_monotonic (p : Practice) (t t' : Str)
    (hw : ∀ conf, p.scoring = some conf → ∀ s ∈ conf.signals,
        0 ≤ wGet (effWeights conf) s)
    (hm : ∀ conf, p.scoring = some conf → ∀ s ∈ conf.signals,
        signalMatched conf t s = true → signalMatched conf t' s = true)
    (hleg : p.scoring = none → ∀ s ∈ p.signals,
        phrase_present t (pyLower (chars s)) = true →
        phrase_present t' (pyLower (chars s)) = true)
    (ow : Option ℚ) :
    (score_practice p t ow).coverage ≤ (score_practice p t' ow).coverage ∧
    (score_practice p t ow).score ≤ (score_practice p t' ow).score := by
  rcases hsc : p.scoring with _ | conf
  · -- legacy path
    simp only [score_practice, hsc]
    by_cases hne : p.signals = []
    · simp [hne]
    · have hcnt := length_filter_mono p.signals
        (fun s => phrase_present t (pyLower (chars s)))
        (fun s => phrase_present t' (pyLower (chars s))) (hleg hsc)
      have hn : (0 : ℚ) < (p.signals.length : ℚ) := by
        have : 0 < p.signals.length := List.length_pos.mpr hne
        exact_mod_cast this
      have hcov : ((p.signals.filter
            (fun s => phrase_present t (pyLower (chars s)))).length : ℚ) /
              (p.signals.length : ℚ) ≤
          ((p.signals.filter
            (fun s => phrase_present t' (pyLower (chars s)))).length : ℚ) /
              (p.signals.length : ℚ) := by
        apply div_le_div_of_nonneg_right _ hn.le
        exact_mod_cast hcnt
      constructor
      · simp only [if_neg hne]
        exact hcov
      · simp only [if_neg hne]
        apply roundHalfEven_mono
        nlinarith
  · -- scoring-block path
    simp only [score_practice, hsc]
    have hmono := match_scoring_signals_mono conf t t' (hw conf hsc) (hm conf hsc)
    rcases hmono with ⟨hcov, hcov0, hne⟩
    refine ⟨hcov, ?_⟩
    apply score_from_coverage_mono _ _ _ _ _ _ _ hcov0 hcov
    · intro h
      simp only [Bool.not_eq_true', Bool.not_eq_false] at h ⊢
      rw [List.isEmpty_eq_false] at h ⊢
      exact hne h
    · intro h
      simp only [decide_eq_true_eq] at h ⊢
      linarith

/-- Evaluation form of the scoring-block path. -/
theorem score_practice_conf_eval (p : Practice) (conf : ScoringConf) (text : Str)
    (ow : Option ℚ) (hconf : p.scoring = some conf) :
    score_practice p text ow =
      { code := p.code, title := p.title, weight := ow.getD (p.weight.getD 0),
        score := score_from_coverage (pyLowerStr (conf.mode.getD ("proportional")))
          (match_scoring_signals text conf).coverage
          (!(match_scoring_signals text conf).matched.isEmpty)
          (decide ((match_scoring_signals text conf).coverage ≥ 999/1000)),
        matched_signals := (match_scoring_signals text conf).matched,
        total_signals := conf.signals.length,
        coverage := (match_scoring_signals text conf).coverage,
        mode := pyLowerStr (conf.mode.getD ("proportional")) } := by
  rw [score_practice, hconf]

/-- A scoring block with a NEGATIVE signal weight: the input on which the
claimed unconditional monotonicity fails. -/
def confNeg : ScoringConf :=
  { mode := some ("proportional"), signals := ["alpha", "beta"],
    signal_weights := [("alpha", -1), ("beta", 2)], signal_aliases := [] }

def pNeg : Practice :=
  { code := some ("N"), title := "n", weight := some 1, scoring := some confNeg,
    signals := [], recommendations := [] }

theorem msNeg_empty : match_scoring_signals (chars ("")) confNeg =
    { matched := [], matched_weight := 0, total_weight := 1, coverage := 0 } := by
  rw [match_scoring_signals]
  have hf : List.filter (signalMatched confNeg (chars (""))) ["alpha", "beta"] = [] := by
    decide
  have w1 : wGet (effWeights confNeg) "alpha" = -1 := by decide
  have w2 : wGet (effWeights confNeg) "beta" = 2 := by decide
  have hsig : confNeg.signals = ["alpha", "beta"] := rfl
  simp only [hsig]
  simp only [hf, List.map_nil, List.sum_nil, List.map_cons, w1, w2, List.sum_cons]
  norm_num

theorem msNeg_alpha : match_scoring_signals (chars ("alpha")) confNeg =
    { matched := ["alpha"], matched_weight := -1, total_weight := 1, coverage := -1 } := by
  rw [match_scoring_signals]
  have hf : List.filter (signalMatched confNeg (chars ("alpha"))) ["alpha", "beta"] = ["alpha"] := by
    decide
  have w1 : wGet (effWeights confNeg) "alpha" = -1 := by decide
  have w2 : wGet (effWeights confNeg) "beta" = 2 := by decide
  have hsig : confNeg.signals = ["alpha", "beta"] := rfl
  simp only [hsig]
  simp only [hf, List.map_nil, List.sum_nil, List.map_cons, w1, w2, List.sum_cons]
  norm_num

/-- C4 counterexample: for a practice whose scoring block assigns signal
"alpha" the weight -1 (and "beta" the weight 2), adding the
previously-unmatched signal phrase "alpha" to the empty text — all
previously matched signals (none) still match — STRICTLY DECREASES both
the coverage (0 to -1) and the proportional score (0 to -5).  The claim,
quantified over every practice definition, is therefore false; it holds
under nonnegative signal weights (see the amended theorem). -/
theorem C4_cex_negative_weight :
    (∀ s ∈ confNeg.signals, signalMatched confNeg (chars ("")) s = true →
        signalMatched confNeg (chars ("alpha")) s = true) ∧
    signalMatched confNeg (chars ("")) "alpha" = false ∧
    signalMatched confNeg (chars ("alpha")) "alpha" = true ∧
    (score_practice pNeg (chars ("alpha")) none).coverage <
      (score_practice pNeg (chars ("")) none).coverage ∧
    (score_practice pNeg (chars ("alpha")) none).score <
      (score_practice pNeg (chars ("")) none).score := by
  refine ⟨by decide, by decide, by decide, ?_, ?_⟩
  · rw [score_practice_conf_eval pNeg confNeg (chars ("alpha")) none rfl,
      score_practice_conf_eval pNeg confNeg (chars ("")) none rfl, msNeg_empty, msNeg_alpha]
    norm_num
  · rw [score_practice_conf_eval pNeg confNeg (chars ("alpha")) none rfl,
      score_practice_conf_eval pNeg confNeg (chars ("")) none rfl, msNeg_empty, msNeg_alpha]
    have hmode : pyLowerStr (confNeg.mode.getD ("proportional")) = "proportional" := by decide
    simp only [hmode]
    have h0 : score_from_coverage ("proportional") 0 (!List.isEmpty ([] : List String))
        (decide ((0 : ℚ) ≥ 999/1000)) = 0 := by
      rw [score_from_coverage]
      simp
    have h1 : score_from_coverage ("proportional") (-1) (!List.isEmpty ["alpha"])
        (decide ((-1 : ℚ) ≥ 999/1000)) = -5 := by
      rw [score_from_coverage]
      have ham : ¬ ((!List.isEmpty ["alpha"]) = false) := by decide
      rw [if_neg ham, if_pos rfl]
      rw [(by norm_num : (-1 : ℚ) * 5 = ((-5 : ℤ) : ℚ)), roundHalfEven_intCast]
    rw [h0, h1]
    omega

/-- A scoring block with default (all 1) weights, for the witness. -/
def confMono : ScoringConf :=
  { mode := some ("proportional"), signals := ["alpha", "beta"],
    signal_weights := [], signal_aliases := [] }

def pMono : Practice :=
  { code := some ("M"), title := "m", weight := some 1, scoring := some confMono,
    signals := [], recommendations := [] }

/-- Witness for C4 as amended: concrete nonnegative-weight practice, empty
text versus the text with the signal phrase added. -/
theorem C4_monotonic_witness :
    (score_practice pMono (chars ("")) none).coverage ≤
      (score_practice pMono (chars ("alpha")) none).coverage ∧
    (score_practice pMono (chars ("")) none).score ≤
      (score_practice pMono (chars ("alpha")) none).score := by
  apply C4_monotonic pMono (chars ("")) (chars ("alpha"))
  · intro conf heq
    have h2 : some confMono = some conf := heq
    injection h2 with h3
    subst h3
    decide
  · intro conf heq
    have h2 : some confMono = some conf := heq
    injection h2 with h3
    subst h3
    decide
  · intro h
    exact Option.noConfusion (show (some confMono : Option ScoringConf) = none from h)

/-! ### C7: semantic deduplication -/

/-- The real-valued guard of `_cos`: `math.sqrt(x) or 1.0`. -/
noncomputable def sqrtOr1 (x : ℚ) : ℝ :=
  if Real.sqrt (x : ℝ) = 0 then 1 else Real.sqrt (x : ℝ)

/-- The exact real value `_cos(a, b)` computes for the (unnormalized) count
vectors: in exact arithmetic the L2 normalization of the source cancels
inside the cosine, leaving the dot product over the guarded norms. -/
noncomputable def realCosSim (a b : List ℚ) : ℝ :=
  ((dot a b : ℚ) : ℝ) / (sqrtOr1 (normSq a) * sqrtOr1 (normSq b))

theorem zip_self_eq {α : Type} (l : List α) : l.zip l = l.map fun x => (x, x) := by
  induction l with
  | nil => rfl
  | cons x xs ih => simp [List.zip_cons_cons, ih]

theorem normSq_eq_sum_squares (a : List ℚ) : normSq a = (a.map fun x => x * x).sum := by
  rw [normSq, dot, zip_self_eq, List.map_map]
  rfl

theorem sum_squares_nonneg (l : List ℚ) : 0 ≤ (l.map fun x => x * x).sum := by
  apply List.sum_nonneg
  intro y hy
  rcases List.mem_map.mp hy with ⟨z, _, rfl⟩
  exact mul_self_nonneg z

theorem normSq_nonneg (a : List ℚ) : 0 ≤ normSq a := by
  rw [normSq_eq_sum_squares]
  exact sum_squares_nonneg a

theorem eq_zero_of_normSq_eq_zero (a : List ℚ) (h : normSq a = 0) :
    ∀ x ∈ a, x = 0 := by
  intro x hx
  by_contra hne
  have hsplit : ∃ s t, a = s ++ x :: t := List.append_of_mem hx
  rcases hsplit with ⟨s, t, rfl⟩
  rw [normSq_eq_sum_squares, List.map_append, List.sum_append, List.map_cons,
    List.sum_cons] at h
  have hs := sum_squares_nonneg s
  have ht := sum_squares_nonneg t
  have hx2 : 0 < x * x := mul_self_pos.mpr hne
  nlinarith [h, hs, ht, hx2]

theorem dot_eq_zero_of_left_zero (a b : List ℚ) (ha : ∀ x ∈ a, x = 0) :
    dot a b = 0 := by
  rw [dot]
  apply List.sum_eq_zero
  intro y hy
  rcases List.mem_map.mp hy with ⟨p, hp, rfl⟩
  have := ha p.1 (List.of_mem_zip hp).1
  rw [this, zero_mul]

theorem dot_comm (a b : List ℚ) : dot a b = dot b a := by
  induction a generalizing b with
  | nil => cases b <;> rfl
  | cons x xs ih =>
    cases b with
    | nil => rfl
    | cons y ys =>
      simp only [dot, List.zip_cons_cons, List.map_cons, List.sum_cons] at *
      rw [mul_comm]
      congr 1
      exact ih ys

theorem sqrtOr1_pos (x : ℚ) : 0 < sqrtOr1 x := by
  rw [sqrtOr1]
  split_ifs with h
  · norm_num
  · rcases lt_or_eq_of_le (Real.sqrt_nonneg (x : ℝ)) with hlt | heq
    · exact hlt
    · exact absurd heq.symm h

theorem sqrtOr1_of_pos (x : ℚ) (hx : 0 < x) : sqrtOr1 x = Real.sqrt (x : ℝ) := by
  rw [sqrtOr1, if_neg]
  intro h
  have hx' : (0 : ℝ) < (x : ℝ) := by exact_mod_cast hx
  have := Real.sqrt_pos.mpr hx'
  linarith

/-- The exact-arithmetic similarity test of the embedding is exactly the
source comparison `_cos(vec, rep_vec) > 0.90` in the reals. -/
theorem cosGt90_iff_realCos (a b : List ℚ) :
    cosGt90 a b = true ↔ realCosSim a b > 9/10 := by
  rw [cosGt90, decide_eq_true_eq, realCosSim]
  constructor
  · rintro ⟨hdot, hsq⟩
    have ha0 : normSq a ≠ 0 := by
      intro h
      have := dot_eq_zero_of_left_zero a b (eq_zero_of_normSq_eq_zero a h)
      linarith
    have hb0 : normSq b ≠ 0 := by
      intro h
      have h2 := dot_eq_zero_of_left_zero b a (eq_zero_of_normSq_eq_zero b h)
      rw [dot_comm] at h2
      linarith
    have hapos : 0 < normSq a := lt_of_le_of_ne (normSq_nonneg a) (Ne.symm ha0)
    have hbpos : 0 < normSq b := lt_of_le_of_ne (normSq_nonneg b) (Ne.symm hb0)
    rw [sqrtOr1_of_pos _ hapos, sqrtOr1_of_pos _ hbpos]
    rw [← Real.sqrt_mul (by positivity)]
    rw [gt_iff_lt, lt_div_iff (by positivity)]
    have hsqR : (81 : ℝ) * ((normSq a : ℝ) * (normSq b : ℝ)) <
        100 * ((dot a b : ℝ)) ^ 2 := by exact_mod_cast hsq
    have hdR : (0 : ℝ) < ((dot a b : ℚ) : ℝ) := by exact_mod_cast hdot
    have hprod : ((normSq a : ℝ) * (normSq b : ℝ)) <
        ((10 : ℝ)/9 * ((dot a b : ℚ) : ℝ)) ^ 2 := by
      rw [mul_pow]
      nlinarith
    have hsqrt := Real.sqrt_lt_sqrt (by positivity) hprod
    rw [Real.sqrt_sq (by positivity)] at hsqrt
    push_cast at hsqrt ⊢
    nlinarith [Real.sqrt_nonneg ((normSq a : ℝ) * (normSq b : ℝ))]
  · intro h
    have hden : 0 < sqrtOr1 (normSq a) * sqrtOr1 (normSq b) :=
      mul_pos (sqrtOr1_pos _) (sqrtOr1_pos _)
    have hdotR : (0 : ℝ) < ((dot a b : ℚ) : ℝ) := by
      by_contra hle
      push_neg at hle
      have : ((dot a b : ℚ) : ℝ) / (sqrtOr1 (normSq a) * sqrtOr1 (normSq b)) ≤ 0 :=
        div_nonpos_of_nonpos_of_nonneg hle hden.le
      linarith
    have hdot : 0 < dot a b := by exact_mod_cast hdotR
    refine ⟨hdot, ?_⟩
    have ha0 : normSq a ≠ 0 := by
      intro hz
      have := dot_eq_zero_of_left_zero a b (eq_zero_of_normSq_eq_zero a hz)
      linarith
    have hb0 : normSq b ≠ 0 := by
      intro hz
      have h2 := dot_eq_zero_of_left_zero b a (eq_zero_of_normSq_eq_zero b hz)
      rw [dot_comm] at h2
      linarith
    have hapos : 0 < normSq a := lt_of_le_of_ne (normSq_nonneg a) (Ne.symm ha0)
    have hbpos : 0 < normSq b := lt_of_le_of_ne (normSq_nonneg b) (Ne.symm hb0)
    rw [sqrtOr1_of_pos _ hapos, sqrtOr1_of_pos _ hbpos] at h
    rw [← Real.sqrt_mul (by positivity), gt_iff_lt, lt_div_iff (by positivity)] at h
    have hsq := Real.sq_sqrt (show (0 : ℝ) ≤ (normSq a : ℝ) * (normSq b : ℝ) by positivity)
    have hR : (81 : ℝ) * ((normSq a : ℝ) * (normSq b : ℝ)) <
        100 * ((dot a b : ℚ) : ℝ) ^ 2 := by
      nlinarith [Real.sqrt_nonneg ((normSq a : ℝ) * (normSq b : ℝ)), h, hsq]
    exact_mod_cast hR

theorem dedupeGo_sublist {α : Type} (pairs : List (α × List ℚ)) :
    ∀ reps : List (List ℚ), (dedupeGo pairs reps).Sublist (pairs.map Prod.fst) := by
  induction pairs with
  | nil =>
    intro reps
    simp [dedupeGo]
  | cons hd tl ih =>
    intro reps
    rcases hd with ⟨r, v⟩
    rw [dedupeGo]
    split_ifs
    · exact (ih reps).trans (List.sublist_cons_self _ _)
    · exact List.Sublist.cons₂ r (ih (reps ++ [v]))

/-- The two engineered near-duplicates: cosine exactly 19/20 = 0.95 under
the fallback vectorizer (count vectors (1,0,0,0,0) and (19,5,3,2,1)). -/
def rSimA : DRec := { rid := "s1", title := "alpha", reasoning := "" }

def rSimB : DRec :=
  { rid := "s2",
    title := "alpha alpha alpha alpha alpha alpha alpha alpha alpha alpha alpha alpha alpha alpha alpha alpha alpha alpha alpha beta beta beta beta beta gamma gamma gamma delta delta epsilon",
    reasoning := "" }

def vSimA : List ℚ := [1, 0, 0, 0, 0]

def vSimB : List ℚ := [19, 5, 3, 2, 1]

/-- The two clearly-distinct recommendations: cosine exactly 1/2 = 0.50
(count vectors (1,1,0) and (1,0,1)). -/
def rHalfA : DRec := { rid := "h1", title := "alpha beta", reasoning := "" }

def rHalfB : DRec := { rid := "h2", title := "alpha gamma", reasoning := "" }

def vHalfA : List ℚ := [1, 1, 0]

def vHalfB : List ℚ := [1, 0, 1]

theorem dedupe_sublist (recs : List DRec) :
    (dedupe_semantic_recommendations recs).Sublist recs := by
  rw [dedupe_semantic_recommendations]
  split_ifs with h
  · exact List.Sublist.refl recs
  · have hzip : (recs.zip (fallbackVectors recs)).map Prod.fst = recs := by
      apply List.map_fst_zip
      rw [fallbackVectors]
      simp
    have hsub := dedupeGo_sublist (recs.zip (fallbackVectors recs)) []
    rwa [hzip] at hsub

theorem fallback_sim_eval : fallbackVectors [rSimA, rSimB] = [vSimA, vSimB] := by decide

theorem fallback_half_eval : fallbackVectors [rHalfA, rHalfB] = [vHalfA, vHalfB] := by decide

theorem dot_sim_eval : dot vSimB vSimA = 19 := by
  rw [vSimA, vSimB, dot]
  norm_num [List.zip_cons_cons]

theorem normSq_vSimA : normSq vSimA = 1 := by
  rw [vSimA, normSq, dot]
  norm_num [List.zip_cons_cons]

theorem normSq_vSimB : normSq vSimB = 400 := by
  rw [vSimB, normSq, dot]
  norm_num [List.zip_cons_cons]

theorem realCos_sim_eval : realCosSim vSimB vSimA = 19/20 := by
  rw [realCosSim, dot_sim_eval, normSq_vSimA, normSq_vSimB,
    sqrtOr1_of_pos 400 (by norm_num), sqrtOr1_of_pos 1 (by norm_num)]
  have h400 : Real.sqrt ((400 : ℚ) : ℝ) = 20 := by
    rw [(by norm_num : ((400 : ℚ) : ℝ) = (20 : ℝ) ^ 2), Real.sqrt_sq (by norm_num)]
  have h1 : Real.sqrt ((1 : ℚ) : ℝ) = 1 := by
    rw [(by norm_num : ((1 : ℚ) : ℝ) = (1 : ℝ)), Real.sqrt_one]
  rw [h400, h1]
  norm_num

theorem dot_half_eval : dot vHalfB vHalfA = 1 := by
  rw [vHalfA, vHalfB, dot]
  norm_num [List.zip_cons_cons]

theorem normSq_vHalfA : normSq vHalfA = 2 := by
  rw [vHalfA, normSq, dot]
  norm_num [List.zip_cons_cons]

theorem normSq_vHalfB : normSq vHalfB = 2 := by
  rw [vHalfB, normSq, dot]
  norm_num [List.zip_cons_cons]

theorem realCos_half_eval : realCosSim vHalfB vHalfA = 1/2 := by
  rw [realCosSim, dot_half_eval, normSq_vHalfA, normSq_vHalfB,
    sqrtOr1_of_pos 2 (by norm_num)]
  have h2 : Real.sqrt ((2 : ℚ) : ℝ) * Real.sqrt ((2 : ℚ) : ℝ) = 2 := by
    rw [Real.mul_self_sqrt (by norm_num)]
    norm_num
  rw [h2]
  norm_num

theorem cosGt90_sim : cosGt90 vSimB vSimA = true :=
  (cosGt90_iff_realCos vSimB vSimA).mpr (by rw [realCos_sim_eval]; norm_num)

theorem cosGt90_half : cosGt90 vHalfB vHalfA = false := by
  rw [← Bool.not_eq_true]
  intro h
  have := (cosGt90_iff_realCos vHalfB vHalfA).mp h
  rw [realCos_half_eval] at this
  norm_num at this

theorem dedupe_sim_pair : dedupe_semantic_recommendations [rSimA, rSimB] = [rSimA] := by
  rw [dedupe_semantic_recommendations, if_neg (by decide), fallback_sim_eval]
  simp only [List.zip_cons_cons, List.zip_nil_right]
  rw [dedupeGo, if_neg (by decide)]
  simp only [List.nil_append]
  rw [dedupeGo, if_pos (by rw [List.any_cons, cosGt90_sim]; rfl)]
  rfl

theorem dedupe_half_pair :
    dedupe_semantic_recommendations [rHalfA, rHalfB] = [rHalfA, rHalfB] := by
  rw [dedupe_semantic_recommendations, if_neg (by decide), fallback_half_eval]
  simp only [List.zip_cons_cons, List.zip_nil_right]
  rw [dedupeGo, if_neg (by decide)]
  simp only [List.nil_append]
  rw [dedupeGo, if_neg (by rw [List.any_cons, cosGt90_half]; decide)]
  rfl

/-- C7: the recommendation deduplication is a greedy single pass.
Conjunct 1: the output is a subsequence of the input in original order.
Conjunct 2: one greedy step keeps a recommendation exactly when its real
cosine similarity (the value `_cos` computes, with the `or 1.0` guards) to
every already-kept representative is at most 0.90, appending its vector to
the representatives; a similarity above 0.90 to some representative drops
it.  Conjuncts 3 and 4: under the bag-of-words fallback vectorizer, the
engineered pair with cosine exactly 0.95 collapses to one kept item, and
the pair with cosine exactly 0.50 is kept whole. -/
theorem C7_dedupe_greedy_threshold :
    (∀ recs : List DRec, (dedupe_semantic_recommendations recs).Sublist recs) ∧
    (∀ (r : DRec) (v : List ℚ) (rest : List (DRec × List ℚ)) (reps : List (List ℚ)),
      ((∃ rep ∈ reps, realCosSim v rep > 9/10) →
        dedupeGo ((r, v) :: rest) reps = dedupeGo rest reps) ∧
      ((∀ rep ∈ reps, realCosSim v rep ≤ 9/10) →
        dedupeGo ((r, v) :: rest) reps = r :: dedupeGo rest (reps ++ [v]))) ∧
    (fallbackVectors [rSimA, rSimB] = [vSimA, vSimB] ∧
      realCosSim vSimB vSimA = 19/20 ∧
      dedupe_semantic_recommendations [rSimA, rSimB] = [rSimA]) ∧
    (fallbackVectors [rHalfA, rHalfB] = [vHalfA, vHalfB] ∧
      realCosSim vHalfB vHalfA = 1/2 ∧
      dedupe_semantic_recommendations [rHalfA, rHalfB] = [rHalfA, rHalfB]) := by
  refine ⟨dedupe_sublist, ?_,
    ⟨fallback_sim_eval, realCos_sim_eval, dedupe_sim_pair⟩,
    ⟨fallback_half_eval, realCos_half_eval, dedupe_half_pair⟩⟩
  intro r v rest reps
  constructor
  · rintro ⟨rep, hrep, hgt⟩
    rw [dedupeGo, if_pos]
    rw [List.any_eq_true]
    exact ⟨rep, hrep, (cosGt90_iff_realCos v rep).mpr hgt⟩
  · intro hall
    rw [dedupeGo, if_neg]
    rw [List.any_eq_true]
    rintro ⟨rep, hrep, hcos⟩
    have hgt := (cosGt90_iff_realCos v rep).mp hcos
    exact absurd hgt (not_lt.mpr (hall rep hrep))

/-- Witness for C7: the greedy step applied at the concrete engineered
pairs — the 0.95 pair is dropped, the 0.50 pair is kept. -/
theorem C7_dedupe_greedy_threshold_witness :
    dedupeGo [(rSimB, vSimB)] [vSimA] = ([] : List DRec) ∧
    dedupeGo [(rHalfB, vHalfB)] [vHalfA] = [rHalfB] := by
  have hmain := C7_dedupe_greedy_threshold
  constructor
  · have h1 := (hmain.2.1 rSimB vSimB [] [vSimA]).1
    rw [h1 ⟨vSimA, by simp, by rw [hmain.2.2.1.2.1]; norm_num⟩]
    rfl
  · have h2 := (hmain.2.1 rHalfB vHalfB [] [vHalfA]).2
    rw [h2 ?_]
    · rfl
    · intro rep hrep
      have hrep' : rep = vHalfA := by simpa using hrep
      rw [hrep', hmain.2.2.2.2.1]
      norm_num

end AzWaf
